import Mathlib

/-!
# crypt: a password-protected document vault (main.go)

A shallow embedding of `main.go`.  The program keeps two files in a vault
directory: `pw` (a bcrypt hash of the password) and `key` (the master key
`key1`, sealed with AES-GCM under `key0 = argon2id(password)`).  Documents are
sealed with AES-GCM under `key1`.

* The file system, the entropy source and the failures of system calls are an
  explicit `World` that every operation reads and updates.  A file is not its
  path: the world resolves every path to the file it names, so that two
  spellings of a path, an absolute and a relative path, or a link and its
  target are one file.
* A Go call that returns `(value, error)` or panics yields a `Res`.
* The cryptographic packages (`bcrypt`, `argon2`, `crypto/aes`,
  `crypto/cipher`) are parameters, collected in `Lib`; what this program relies
  on from them is stated in `Lib.Lawful`.
-/

namespace Crypt

/-- A byte sequence: the contents of a Go `[]byte` or of a file. -/
abbrev Bytes := List UInt8

/-- The system calls the program makes on a path. -/
inductive Syscall where
  | osOpen (path : String)
  | readAll (path : String)
  | osCreate (path : String)
  | fileWrite (path : String)
  deriving DecidableEq, Repr

/-- The error values that reach the callers of the program's functions. -/
inductive GoError where
  /-- The package variable `ErrWrongPassword`. -/
  | ErrWrongPassword
  /-- The error of `gcm.Open`: "cipher: message authentication failed". -/
  | errOpen
  /-- The error of `aes.NewCipher` for a key that is not 16, 24 or 32 bytes long. -/
  | KeySizeError (n : Nat)
  /-- The error of `bcrypt.GenerateFromPassword` for a password over 72 bytes. -/
  | ErrPasswordTooLong
  /-- The error of a failed system call. -/
  | PathError (call : Syscall)
  /-- The error of `rand.Read` when the entropy source fails. -/
  | randError
  deriving DecidableEq, Repr

/-- The run-time panics the program can raise. -/
inductive GoPanic where
  /-- "slice bounds out of range". -/
  | sliceBounds
  /-- "index out of range". -/
  | indexOutOfRange
  /-- The panic of `gcm.Seal`: "crypto/cipher: message too large for GCM". -/
  | messageTooLarge
  deriving DecidableEq, Repr

/-- The outcome of a Go call: a value with a nil error, a non-nil error, or a panic. -/
inductive Res (α : Type) where
  | ok (a : α)
  | err (e : GoError)
  | panic (p : GoPanic)
  deriving DecidableEq, Repr

/-- The environment of the program: the contents of the readable files, each
under its identity; the file every path names (`resolve`: what the operating
system makes of the working directory, of `.`, `..` and repeated separators,
and of links); the system calls that fail; and the bytes the entropy source
will still deliver. -/
structure World where
  store : String → Option Bytes
  resolve : String → String
  fault : Syscall → Bool
  entropy : List UInt8

/-- The contents of the file a path names, when it can be read. Two paths that
resolve alike name one file. -/
def World.files (w : World) (path : String) : Option Bytes :=
  w.store (w.resolve path)

/-- A Go computation: it runs in a world and leaves a world behind. -/
def GoM (α : Type) : Type := World → Res α × World

/-- Sequencing: a non-nil error or a panic of the first call ends the function. -/
def GoM.bind {α β : Type} (m : GoM α) (f : α → GoM β) : GoM β := fun w =>
  match m w with
  | (Res.ok a, w1) => f a w1
  | (Res.err e, w1) => (Res.err e, w1)
  | (Res.panic p, w1) => (Res.panic p, w1)

instance : Monad GoM where
  pure a := fun w => (Res.ok a, w)
  bind := GoM.bind

/-- The statement `return err` with a non-nil error. -/
def GoM.fail {α : Type} (e : GoError) : GoM α := fun w => (Res.err e, w)

/-- The outcome of a call that does not touch the world. -/
def GoM.lift {α : Type} (r : Res α) : GoM α := fun w => (r, w)

/-! ## The standard library -/

/-- The elements of a path: what stands between its separators. -/
def splitSlash : List Char → List (List Char)
  | [] => [[]]
  | c :: cs =>
    if c = '/' then [] :: splitSlash cs
    else match splitSlash cs with
      | [] => [[c]]
      | x :: xs => (c :: x) :: xs

/-- One step of `filepath.Clean` over the elements kept so far, last first: an
empty element and `.` are dropped, `..` removes the element before it, and is
kept only at the start of a path that is not rooted. -/
def cleanStep (rooted : Bool) (kept : List (List Char)) (c : List Char) : List (List Char) :=
  if c = [] ∨ c = ['.'] then kept
  else if c = ['.', '.'] then
    match kept with
    | [] => if rooted then [] else [c]
    | top :: below => if top = ['.', '.'] then c :: kept else below
  else c :: kept

/-- The elements joined by separators. -/
def joinSlash : List (List Char) → List Char
  | [] => []
  | [x] => x
  | x :: y :: xs => x ++ '/' :: joinSlash (y :: xs)

/-- The call `filepath.Clean(path)` (Unix): the shortest path that names the same
file by the rules of the package, `.` for the empty one. -/
def pathClean (path : String) : String :=
  let rooted := path.data.head? = some '/'
  let kept := (splitSlash path.data).foldl (cleanStep rooted) []
  let body := joinSlash kept.reverse
  if rooted then String.mk ('/' :: body)
  else if body = [] then "."
  else String.mk body

/-- The call `filepath.Join(dir, elem)`: empty elements at the front are
ignored, the rest is joined by separators and cleaned. -/
def filepathJoin (dir elem : String) : String :=
  if dir = "" then (if elem = "" then "" else pathClean elem)
  else pathClean (dir ++ "/" ++ elem)

/-- The call `os.Open(path)`: the handle is the path; it fails when the call is
faulted or no readable file is there. -/
def osOpen (path : String) : GoM String := fun w =>
  if w.fault (Syscall.osOpen path) then (Res.err (GoError.PathError (Syscall.osOpen path)), w)
  else match w.files path with
    | none => (Res.err (GoError.PathError (Syscall.osOpen path)), w)
    | some _ => (Res.ok path, w)

/-- The call `io.ReadAll(f)`: the whole contents of the file behind the handle. -/
def ioReadAll (f : String) : GoM Bytes := fun w =>
  if w.fault (Syscall.readAll f) then (Res.err (GoError.PathError (Syscall.readAll f)), w)
  else match w.files f with
    | none => (Res.err (GoError.PathError (Syscall.readAll f)), w)
    | some b => (Res.ok b, w)

/-- The world after the file `path` names got the contents `b`. -/
def World.setFile (w : World) (path : String) (b : Bytes) : World :=
  { w with store := fun i => if i = w.resolve path then some b else w.store i }

/-- The call `os.Create(path)`: the file is created or truncated to length 0. -/
def osCreate (path : String) : GoM String := fun w =>
  if w.fault (Syscall.osCreate path) then (Res.err (GoError.PathError (Syscall.osCreate path)), w)
  else (Res.ok path, w.setFile path [])

/-- The call `f.Write(b)` on a handle: the bytes are appended at the file offset,
which for a handle just created is the start of the empty file. A faulted write
leaves the file as it was. -/
def fileWrite (f : String) (b : Bytes) : GoM Unit := fun w =>
  if w.fault (Syscall.fileWrite f) then (Res.err (GoError.PathError (Syscall.fileWrite f)), w)
  else (Res.ok (), w.setFile f ((w.files f).getD [] ++ b))

/-- The world after `n` bytes were drawn from the entropy source. -/
def World.consume (w : World) (n : Nat) : World :=
  { w with entropy := w.entropy.drop n }

/-- The call `rand.Read(buf)` for a buffer of `n` bytes: the next `n` bytes of
the entropy source, or an error when it cannot deliver them. -/
def randRead (n : Nat) : GoM Bytes := fun w =>
  if w.entropy.length < n then (Res.err GoError.randError, w)
  else (Res.ok (w.entropy.take n), w.consume n)

/-- The index expression `args[i]`: it panics when `i` is out of range. -/
def index (args : List String) (i : Nat) : GoM String :=
  match args.get? i with
  | some a => pure a
  | none => GoM.lift (Res.panic GoPanic.indexOutOfRange)

/-! ## The cryptographic packages -/

/-- The primitives of the packages the program imports.

* `bcryptEncode salt ks`: the encoded hash bcrypt produces at the default cost
  from 16 salt bytes and the Blowfish key stream `ks` of the password.
* `bcryptVerify h ks`: whether `h` parses as a bcrypt hash whose digest is the
  one recomputed from the key stream `ks` with the salt and cost stored in `h`.
* `bcryptLimit`: whether this release of the package makes
  `GenerateFromPassword` reject passwords over 72 bytes.
* `argon2IDKey password salt time memory threads keyLen`.
* `gcmSeal key nonce plaintext`: ciphertext followed by the tag, no additional
  data, for a plaintext within the message limit of GCM.
* `gcmOpen key nonce ciphertext`: the plaintext, or `none` when authentication
  fails. -/
structure Lib where
  bcryptEncode : Bytes → Bytes → Bytes
  bcryptVerify : Bytes → Bytes → Bool
  bcryptLimit : Bool
  argon2IDKey : Bytes → Bytes → Nat → Nat → Nat → Nat → Bytes
  gcmSeal : Bytes → Bytes → Bytes → Bytes
  gcmOpen : Bytes → Bytes → Bytes → Option Bytes

/-- The key lengths `aes.NewCipher` accepts. -/
def aesKeySize (n : Nat) : Bool := n == 16 || n == 24 || n == 32

/-- The calls `aes.NewCipher(key)` and `cipher.NewGCM(c)`: a `KeySizeError` for
a key of another length; `NewGCM` never fails on an AES block cipher. -/
def aesNewCipher (key : Bytes) : Res Unit :=
  if aesKeySize key.length then Res.ok () else Res.err (GoError.KeySizeError key.length)

/-- The value of `gcm.NonceSize()`. -/
def gcmNonceSize : Nat := 12

/-- The longest plaintext `gcm.Seal` accepts, `((1 << 32) - 2) * 16` bytes; on a
longer one it panics. -/
def gcmMaxPlaintext : Nat := (2 ^ 32 - 2) * 16

/-- The bytes Blowfish's key schedule reads from a bcrypt password: the package
appends a NUL byte to the password and the schedule takes eighteen 32-bit words
from that key, starting over at its end. -/
def blowfishKeyStream (pw : Bytes) : Bytes :=
  (List.range 72).map fun i => (pw ++ [0]).getD (i % (pw.length + 1)) 0

/-- The call `bcrypt.GenerateFromPassword(pw, bcrypt.DefaultCost)`: 16 fresh
salt bytes, then the encoded hash. -/
def GenerateFromPassword (lib : Lib) (pw : Bytes) : GoM Bytes :=
  if lib.bcryptLimit && decide (72 < pw.length) then GoM.fail GoError.ErrPasswordTooLong
  else do
    let salt ← randRead 16
    pure (lib.bcryptEncode salt (blowfishKeyStream pw))

/-- The test `bcrypt.CompareHashAndPassword(h, pw) == nil`. -/
def CompareHashAndPassword (lib : Lib) (h pw : Bytes) : Bool :=
  lib.bcryptVerify h (blowfishKeyStream pw)

/-- The byte slice `gcm.Open(nil, ...)` returns on success: the plaintext
appended to the nil `dst`. Appending no bytes to a nil slice leaves it nil
(`none`), so an empty plaintext comes back as nil. -/
def appendToNil (pt : Bytes) : Option Bytes := if pt.isEmpty then none else some pt

/-- The bytes of a slice that may be nil. -/
def bytesOf (s : Option Bytes) : Bytes := s.getD []

/-! ## main.go -/

/-- The function `deriveKey0` (main.go 329-331): Argon2id of the password with
the fixed salt `"key"`, time 1, memory 64 MiB, 4 threads, 32 bytes. -/
def deriveKey0 (lib : Lib) (pw : Bytes) : Bytes :=
  lib.argon2IDKey pw [107, 101, 121] 1 (64 * 1024) 4 32

/-- The function `encrypt` (main.go 299-314): `gcm.Seal(nonce, nonce, plaintext,
nil)` appends the sealed plaintext to a fresh nonce, and panics on a plaintext
over the message limit of GCM. -/
def encrypt (lib : Lib) (key plaintext : Bytes) : GoM Bytes := do
  GoM.lift (aesNewCipher key)
  let nonce ← randRead gcmNonceSize
  if gcmMaxPlaintext < plaintext.length then GoM.lift (Res.panic GoPanic.messageTooLarge)
  else pure (nonce ++ lib.gcmSeal key nonce plaintext)

/-- The function `decrypt` (main.go 316-327). There is no length check before
`gcm.Open(nil, ciphertext[:nonceSize], ciphertext[nonceSize:], nil)`: on an
input shorter than the nonce the slice expressions panic. The result is the
slice `Open` returns, which may be nil. -/
def decrypt (lib : Lib) (key ciphertext : Bytes) : Res (Option Bytes) :=
  match aesNewCipher key with
  | Res.err e => Res.err e
  | Res.panic p => Res.panic p
  | Res.ok () =>
    if ciphertext.length < gcmNonceSize then Res.panic GoPanic.sliceBounds
    else match lib.gcmOpen key (ciphertext.take gcmNonceSize) (ciphertext.drop gcmNonceSize) with
      | none => Res.err GoError.errOpen
      | some pt => Res.ok (appendToNil pt)

/-- The function `checkPassword` (main.go 287-297). -/
def checkPassword (lib : Lib) (cryptDir : String) (pw : Bytes) : GoM Bool := do
  let f ← osOpen (filepathJoin cryptDir "pw")
  let h ← ioReadAll f
  pure (CompareHashAndPassword lib h pw)

/-- The function `decryptKey1` (main.go 333-344). -/
def decryptKey1 (lib : Lib) (cryptDir : String) (pw : Bytes) : GoM (Option Bytes) := do
  let f ← osOpen (filepathJoin cryptDir "key")
  let key1Encrypted ← ioReadAll f
  let key0 := deriveKey0 lib pw
  GoM.lift (decrypt lib key0 key1Encrypted)

/-- The function `Initialise` (main.go 127-161). The argument `key1` is a slice
that may be nil, and `key1 == nil` makes the function draw 32 random bytes.
The `pw` file is written before the `key` file, both in place. -/
def Initialise (lib : Lib) (cryptDir : String) (pw : Bytes) (key1 : Option Bytes) : GoM Unit := do
  let pwHash ← GenerateFromPassword lib pw
  let f ← osCreate (filepathJoin cryptDir "pw")
  fileWrite f pwHash
  let key1 ← match key1 with
    | none => randRead 32
    | some k => pure k
  let key0 := deriveKey0 lib pw
  let key1Encrypted ← encrypt lib key0 key1
  let f ← osCreate (filepathJoin cryptDir "key")
  fileWrite f key1Encrypted

/-- The destination of `Encrypt`: `args[1]` when given, else `args[0] + ".crypt"`. -/
def encryptDst (src : String) (args : List String) : String :=
  match args with
  | _ :: dst :: _ => dst
  | _ => src ++ ".crypt"

/-- The function `Encrypt` (main.go 164-202). -/
def Encrypt (lib : Lib) (args : List String) (cryptDir : String) (pw : Bytes) : GoM Unit := do
  let ok ← checkPassword lib cryptDir pw
  if !ok then GoM.fail GoError.ErrWrongPassword
  else do
    let key1 ← decryptKey1 lib cryptDir pw
    let src ← index args 0
    let f ← osOpen src
    let plaintext ← ioReadAll f
    let b ← encrypt lib (bytesOf key1) plaintext
    let f ← osCreate (encryptDst src args)
    fileWrite f b

/-- The function `Decrypt` (main.go 205-239). -/
def Decrypt (lib : Lib) (args : List String) (cryptDir : String) (pw : Bytes) : GoM Unit := do
  let ok ← checkPassword lib cryptDir pw
  if !ok then GoM.fail GoError.ErrWrongPassword
  else do
    let key1 ← decryptKey1 lib cryptDir pw
    let src ← index args 0
    let f ← osOpen src
    let ciphertext ← ioReadAll f
    let plaintext ← GoM.lift (decrypt lib (bytesOf key1) ciphertext)
    let dst ← index args 1
    let f ← osCreate dst
    fileWrite f (bytesOf plaintext)

/-- The function `ChangePassword` (main.go 243-258): the slice `decryptKey1`
returned is passed on to `Initialise` as it is. -/
def ChangePassword (lib : Lib) (cryptDir : String) (pwOld pwNew : Bytes) : GoM Unit := do
  let ok ← checkPassword lib cryptDir pwOld
  if !ok then GoM.fail GoError.ErrWrongPassword
  else do
    let key1 ← decryptKey1 lib cryptDir pwOld
    Initialise lib cryptDir pwNew key1

/-! ## What the program relies on from the packages -/

/-- The contracts of the packages: a bcrypt hash verifies the password it was
made from, Argon2 returns a key of the requested length, and `Open` returns
what `Seal` sealed under the same key and nonce. -/
structure Lib.Lawful (lib : Lib) : Prop where
  bcrypt_verify : ∀ salt ks, lib.bcryptVerify (lib.bcryptEncode salt ks) ks = true
  argon2_length : ∀ pw salt t m p n, (lib.argon2IDKey pw salt t m p n).length = n
  gcm_open_seal : ∀ key nonce pt, aesKeySize key.length = true → nonce.length = gcmNonceSize →
    lib.gcmOpen key nonce (lib.gcmSeal key nonce pt) = some pt

/-- No system call is faulted. -/
def World.NoFaults (w : World) : Prop := ∀ c, w.fault c = false

/-- A computation that never returns `ErrWrongPassword`. -/
def NeverWrong {α : Type} (m : GoM α) : Prop :=
  ∀ w, (m w).1 ≠ Res.err GoError.ErrWrongPassword

/-! ## An executable instance of the packages

A small stand-in for the primitives that satisfies `Lib.Lawful` and can be
evaluated, so that the program can be run on concrete worlds. -/

/-- The stand-in for the AES-GCM tag: four key bytes and the nonce. -/
def miniTag (key nonce : Bytes) : Bytes := key.take 4 ++ nonce

/-- The stand-in for `gcm.Open`. -/
def miniOpen (key nonce ct : Bytes) : Option Bytes :=
  if ct.length < 16 then none
  else if ct.drop (ct.length - 16) = miniTag key nonce then some (ct.take (ct.length - 16))
  else none

/-- The stand-in for the packages. -/
def miniLib : Lib where
  bcryptEncode salt ks := ks ++ salt
  bcryptVerify h ks := ks.isPrefixOf h
  bcryptLimit := true
  argon2IDKey pw _ _ _ _ n := (pw.reverse ++ List.replicate n 0).take n
  gcmSeal key nonce pt := pt ++ miniTag key nonce
  gcmOpen := miniOpen

/-- An empty, fault-free world with the given entropy and without links: a path
names the file its clean form spells, relative to one working directory. -/
def emptyWorld (entropy : List UInt8) : World where
  store := fun _ => none
  resolve := pathClean
  fault := fun _ => false
  entropy := entropy

/-! ## Concrete worlds

The worlds on which the program is run in the examples below: a vault directory
`vault`, a document `doc`, and an entropy source that delivers 0, 1, 2, ... -/

/-- The password `Pass1`. -/
def pwA : Bytes := [80, 97, 115, 115, 49]

/-- The password `Pass2`. -/
def pwB : Bytes := [80, 97, 115, 115, 50]

/-- A password of 72 bytes. -/
def pwLong : Bytes := List.replicate 72 97

/-- The 72-byte password with one more byte. -/
def pwLonger : Bytes := pwLong ++ [98]

/-- The document `hello`. -/
def docA : Bytes := [104, 101, 108, 108, 111]

/-- An empty, fault-free world. -/
def world0 : World := emptyWorld ((List.range 200).map UInt8.ofNat)

/-- The world after `Initialise("vault", pwA, nil)`. -/
def worldInit : World := (Initialise miniLib "vault" pwA none world0).2

/-- The initialised world with the document at `doc`. -/
def worldDoc : World := worldInit.setFile "doc" docA

/-- The world after `Encrypt(["doc"], "vault", pwA)`. -/
def worldEnc : World := (Encrypt miniLib ["doc"] "vault" pwA worldDoc).2

/-- The world after `ChangePassword("vault", pwA, pwB)`. -/
def worldChanged : World := (ChangePassword miniLib "vault" pwA pwB worldEnc).2

/-- The world after `ChangePassword("vault", pwA, pwA)`. -/
def worldSame : World := (ChangePassword miniLib "vault" pwA pwA worldEnc).2

/-- A vault initialised with the 72-byte password, with the document at `doc`. -/
def worldLong : World := ((Initialise miniLib "vault" pwLong none world0).2).setFile "doc" docA

/-- That world after `Encrypt(["doc"], "vault", pwLong)`. -/
def worldLongEnc : World := (Encrypt miniLib ["doc"] "vault" pwLong worldLong).2

/-- The world after `Initialise("vault", pwA, []byte{})`: the vault wraps an empty key. -/
def worldEmptyKey : World := (Initialise miniLib "vault" pwA (some []) world0).2

/-- That world after `ChangePassword("vault", pwA, pwB)`. -/
def worldEmptyKeyChanged : World := (ChangePassword miniLib "vault" pwA pwB worldEmptyKey).2

/-- The world after `Encrypt(["doc", "vault/pw"], "vault", pwA)`. -/
def worldPwDst : World := (Encrypt miniLib ["doc", "vault/pw"] "vault" pwA worldDoc).2

/-- A document one byte over the message limit of GCM. -/
def bigDoc : Bytes := List.replicate (gcmMaxPlaintext + 1) 0

/-- The initialised world with the big document at `big`. -/
def worldBig : World := worldInit.setFile "big" bigDoc

/-- The password `ab`, a NUL byte, `ab`. -/
def pwRep : Bytes := [97, 98, 0, 97, 98]

/-- The password `ab`. -/
def pwAb : Bytes := [97, 98]

/-- A vault initialised with the password `pwRep`, with the document at `doc`. -/
def worldRep : World := ((Initialise miniLib "vault" pwRep none world0).2).setFile "doc" docA

/-- That world after `Encrypt(["doc"], "vault", pwRep)`. -/
def worldRepEnc : World := (Encrypt miniLib ["doc"] "vault" pwRep worldRep).2

/-- That world after `ChangePassword("vault", pwRep, pwAb)`. -/
def worldRepChanged : World := (ChangePassword miniLib "vault" pwRep pwAb worldRepEnc).2

/-- The encrypted world in which the vault's `key` file cannot be opened for writing. -/
def worldKeyLocked : World :=
  { worldEnc with fault := fun c => c == Syscall.osCreate "vault/key" }

/-- The encrypted world in which the vault's `pw` file cannot be opened for writing. -/
def worldPwLocked : World :=
  { worldEnc with fault := fun c => c == Syscall.osCreate "vault/pw" }

/-! ## Running a computation -/

@[simp] theorem bind_apply {α β : Type} (m : GoM α) (f : α → GoM β) (w : World) :
    (m >>= f) w = GoM.bind m f w := rfl

@[simp] theorem pure_apply {α : Type} (a : α) (w : World) :
    (pure a : GoM α) w = (Res.ok a, w) := rfl

/-- A sequence succeeds exactly when both of its parts do. -/
theorem GoM.bind_eq_ok {α β : Type} {m : GoM α} {f : α → GoM β} {w w2 : World} {b : β} :
    GoM.bind m f w = (Res.ok b, w2) ↔ ∃ a w1, m w = (Res.ok a, w1) ∧ f a w1 = (Res.ok b, w2) := by
  unfold GoM.bind
  constructor
  · intro h
    split at h
    · rename_i a w1 hm
      exact ⟨a, w1, hm, h⟩
    · simp at h
    · simp at h
  · rintro ⟨a, w1, hm, hf⟩
    rw [hm]
    exact hf

theorem GoM.bind_of_ok {α β : Type} {m : GoM α} {f : α → GoM β} {w w1 : World} {a : α}
    (h : m w = (Res.ok a, w1)) : GoM.bind m f w = f a w1 := by
  unfold GoM.bind
  rw [h]

theorem GoM.bind_of_err {α β : Type} {m : GoM α} {f : α → GoM β} {w w1 : World} {e : GoError}
    (h : m w = (Res.err e, w1)) : GoM.bind m f w = (Res.err e, w1) := by
  unfold GoM.bind
  rw [h]

theorem bind_ok {α β : Type} {m : GoM α} {f : α → GoM β} {w w1 : World} {a : α}
    (h : m w = (Res.ok a, w1)) : (m >>= f) w = f a w1 :=
  GoM.bind_of_ok h

theorem bind_err {α β : Type} {m : GoM α} {f : α → GoM β} {w w1 : World} {e : GoError}
    (h : m w = (Res.err e, w1)) : (m >>= f) w = (Res.err e, w1) :=
  GoM.bind_of_err h

theorem bind_panic {α β : Type} {m : GoM α} {f : α → GoM β} {w w1 : World} {q : GoPanic}
    (h : m w = (Res.panic q, w1)) : (m >>= f) w = (Res.panic q, w1) := by
  simp only [bind_apply, GoM.bind]
  rw [h]

theorem GoM.lift_eq_ok {α : Type} {r : Res α} {a : α} {w w1 : World} :
    GoM.lift r w = (Res.ok a, w1) ↔ r = Res.ok a ∧ w1 = w := by
  simp [GoM.lift, eq_comm]

/-! ## When a call succeeds -/

theorem osOpen_eq_ok {p f : String} {w w1 : World} :
    osOpen p w = (Res.ok f, w1) ↔
      w.fault (Syscall.osOpen p) = false ∧ (∃ b, w.files p = some b) ∧ f = p ∧ w1 = w := by
  unfold osOpen
  cases hf : w.fault (Syscall.osOpen p) <;> cases hb : w.files p <;> simp [eq_comm]

theorem ioReadAll_eq_ok {f : String} {b : Bytes} {w w1 : World} :
    ioReadAll f w = (Res.ok b, w1) ↔
      w.fault (Syscall.readAll f) = false ∧ w.files f = some b ∧ w1 = w := by
  unfold ioReadAll
  cases hf : w.fault (Syscall.readAll f) <;> cases hb : w.files f <;> simp [eq_comm]

theorem osCreate_eq_ok {p f : String} {w w1 : World} :
    osCreate p w = (Res.ok f, w1) ↔
      w.fault (Syscall.osCreate p) = false ∧ f = p ∧ w1 = w.setFile p [] := by
  unfold osCreate
  cases hf : w.fault (Syscall.osCreate p) <;> simp [eq_comm]

theorem fileWrite_eq_ok {f : String} {b : Bytes} {u : Unit} {w w1 : World} :
    fileWrite f b w = (Res.ok u, w1) ↔
      w.fault (Syscall.fileWrite f) = false ∧ w1 = w.setFile f ((w.files f).getD [] ++ b) := by
  unfold fileWrite
  cases hf : w.fault (Syscall.fileWrite f) <;> simp [eq_comm]

theorem randRead_eq_ok {n : Nat} {b : Bytes} {w w1 : World} :
    randRead n w = (Res.ok b, w1) ↔
      n ≤ w.entropy.length ∧ b = w.entropy.take n ∧ w1 = w.consume n := by
  unfold randRead
  by_cases h : w.entropy.length < n
  · simp [h]
  · simp only [h, if_false, Prod.mk.injEq, Res.ok.injEq]
    constructor
    · rintro ⟨rfl, rfl⟩
      exact ⟨by omega, rfl, rfl⟩
    · rintro ⟨_, rfl, rfl⟩
      exact ⟨rfl, rfl⟩

theorem index_eq_ok {args : List String} {i : Nat} {a : String} {w w1 : World} :
    index args i w = (Res.ok a, w1) ↔ args.get? i = some a ∧ w1 = w := by
  unfold index
  cases h : args.get? i <;> simp [GoM.lift, eq_comm]

theorem checkPassword_eq_ok {lib : Lib} {dir : String} {pw : Bytes} {ok : Bool} {w w1 : World} :
    checkPassword lib dir pw w = (Res.ok ok, w1) ↔
      w.fault (Syscall.osOpen (filepathJoin dir "pw")) = false ∧
      w.fault (Syscall.readAll (filepathJoin dir "pw")) = false ∧
      (∃ h, w.files (filepathJoin dir "pw") = some h ∧ ok = CompareHashAndPassword lib h pw) ∧
      w1 = w := by
  simp only [checkPassword, bind_apply, GoM.bind_eq_ok, osOpen_eq_ok, ioReadAll_eq_ok, pure_apply]
  constructor
  · rintro ⟨f, w2, ⟨h1, ⟨b, hb⟩, rfl, rfl⟩, h, w3, ⟨h2, h3, rfl⟩, h4⟩
    simp at h4
    exact ⟨h1, h2, ⟨h, h3, h4.1.symm⟩, h4.2.symm⟩
  · rintro ⟨h1, h2, ⟨h, h3, rfl⟩, rfl⟩
    exact ⟨_, _, ⟨h1, ⟨h, h3⟩, rfl, rfl⟩, h, _, ⟨h2, h3, rfl⟩, rfl⟩

theorem decryptKey1_eq_ok {lib : Lib} {dir : String} {pw : Bytes} {k : Option Bytes}
    {w w1 : World} :
    decryptKey1 lib dir pw w = (Res.ok k, w1) ↔
      w.fault (Syscall.osOpen (filepathJoin dir "key")) = false ∧
      w.fault (Syscall.readAll (filepathJoin dir "key")) = false ∧
      (∃ blob, w.files (filepathJoin dir "key") = some blob ∧
        decrypt lib (deriveKey0 lib pw) blob = Res.ok k) ∧
      w1 = w := by
  simp only [decryptKey1, bind_apply, GoM.bind_eq_ok, osOpen_eq_ok, ioReadAll_eq_ok,
    GoM.lift_eq_ok]
  constructor
  · rintro ⟨f, w2, ⟨h1, ⟨b, hb⟩, rfl, rfl⟩, blob, w3, ⟨h2, h3, rfl⟩, h4, rfl⟩
    exact ⟨h1, h2, ⟨blob, h3, h4⟩, rfl⟩
  · rintro ⟨h1, h2, ⟨blob, h3, h4⟩, rfl⟩
    exact ⟨_, _, ⟨h1, ⟨blob, h3⟩, rfl, rfl⟩, blob, _, ⟨h2, h3, rfl⟩, h4, rfl⟩

theorem GenerateFromPassword_eq_ok {lib : Lib} {pw h : Bytes} {w w1 : World} :
    GenerateFromPassword lib pw w = (Res.ok h, w1) ↔
      (lib.bcryptLimit && decide (72 < pw.length)) = false ∧ 16 ≤ w.entropy.length ∧
      h = lib.bcryptEncode (w.entropy.take 16) (blowfishKeyStream pw) ∧
      w1 = w.consume 16 := by
  unfold GenerateFromPassword
  cases hl : (lib.bcryptLimit && decide (72 < pw.length))
  · simp only [Bool.false_eq_true, if_false, bind_apply, GoM.bind_eq_ok, randRead_eq_ok,
      pure_apply, true_and]
    constructor
    · rintro ⟨salt, w2, ⟨h1, rfl, rfl⟩, h2⟩
      simp at h2
      exact ⟨h1, h2.1.symm, h2.2.symm⟩
    · rintro ⟨h1, rfl, rfl⟩
      exact ⟨_, _, ⟨h1, rfl, rfl⟩, rfl⟩
  · simp [GoM.fail]

theorem encrypt_eq_ok {lib : Lib} {key pt b : Bytes} {w w1 : World} :
    encrypt lib key pt w = (Res.ok b, w1) ↔
      aesKeySize key.length = true ∧ gcmNonceSize ≤ w.entropy.length ∧
      pt.length ≤ gcmMaxPlaintext ∧
      b = w.entropy.take gcmNonceSize ++ lib.gcmSeal key (w.entropy.take gcmNonceSize) pt ∧
      w1 = w.consume gcmNonceSize := by
  simp only [encrypt, bind_apply, GoM.bind_eq_ok, GoM.lift_eq_ok, randRead_eq_ok, aesNewCipher]
  constructor
  · rintro ⟨u, w2, ⟨h1, hw2⟩, nonce, w3, ⟨h2, hnonce, hw3⟩, h3⟩
    subst w2 w3 nonce
    have hk : aesKeySize key.length = true := by
      by_contra hk
      simp [hk] at h1
    by_cases hlen : gcmMaxPlaintext < pt.length
    · simp [hlen, GoM.lift] at h3
    · simp only [hlen, if_false, pure_apply, Prod.mk.injEq, Res.ok.injEq] at h3
      exact ⟨hk, h2, by omega, h3.1.symm, h3.2.symm⟩
  · rintro ⟨h1, h2, h3, rfl, rfl⟩
    refine ⟨(), _, ⟨by simp [h1], rfl⟩, _, _, ⟨h2, rfl, rfl⟩, ?_⟩
    have hlen : ¬ gcmMaxPlaintext < pt.length := by omega
    simp [hlen]

/-! ## Files and worlds -/

@[simp] theorem setFile_files_same (w : World) (p : String) (b : Bytes) :
    (w.setFile p b).files p = some b := by
  simp [World.setFile, World.files]

/-- Writing one file leaves every other file as it was. -/
theorem setFile_files_other (w : World) {p q : String} (b : Bytes)
    (h : w.resolve q ≠ w.resolve p) : (w.setFile p b).files q = w.files q := by
  simp [World.setFile, World.files, h]

@[simp] theorem setFile_resolve (w : World) (p : String) (b : Bytes) :
    (w.setFile p b).resolve = w.resolve := rfl

@[simp] theorem setFile_fault (w : World) (p : String) (b : Bytes) :
    (w.setFile p b).fault = w.fault := rfl

@[simp] theorem setFile_entropy (w : World) (p : String) (b : Bytes) :
    (w.setFile p b).entropy = w.entropy := rfl

@[simp] theorem consume_files (w : World) (n : Nat) : (w.consume n).files = w.files := rfl

@[simp] theorem consume_resolve (w : World) (n : Nat) : (w.consume n).resolve = w.resolve := rfl

@[simp] theorem consume_fault (w : World) (n : Nat) : (w.consume n).fault = w.fault := rfl

@[simp] theorem consume_entropy (w : World) (n : Nat) :
    (w.consume n).entropy = w.entropy.drop n := rfl

theorem length_take_of_le {n : Nat} {l : List UInt8} (h : n ≤ l.length) :
    (l.take n).length = n := by
  simp [List.length_take, h]

/-! ## The packages -/

/-- The stand-in satisfies the contracts of the packages. -/
theorem miniLib_lawful : miniLib.Lawful where
  bcrypt_verify := by
    intro salt ks
    simp [miniLib]
  argon2_length := by
    intro pw salt t m p n
    simp [miniLib]
  gcm_open_seal := by
    intro key nonce pt hk hn
    have h4 : 4 ≤ key.length := by
      simp [aesKeySize] at hk
      omega
    have hlen : (miniTag key nonce).length = 16 := by
      simp [miniTag, List.length_take, hn, gcmNonceSize]
      omega
    simp [miniLib, miniOpen, hlen]

theorem deriveKey0_aes {lib : Lib} (hl : lib.Lawful) (pw : Bytes) :
    aesKeySize (deriveKey0 lib pw).length = true := by
  simp [deriveKey0, hl.argon2_length, aesKeySize]

theorem aesKeySize_ne_nil {k : Bytes} (h : aesKeySize k.length = true) : k ≠ [] := by
  intro hk
  subst hk
  simp [aesKeySize] at h

theorem appendToNil_of_ne_nil {k : Bytes} (h : k ≠ []) : appendToNil k = some k := by
  cases k with
  | nil => exact absurd rfl h
  | cons a l => simp [appendToNil]

theorem bytesOf_appendToNil (pt : Bytes) : bytesOf (appendToNil pt) = pt := by
  cases pt <;> simp [bytesOf, appendToNil]

/-- The function `decrypt` opens what `encrypt` produced under the same key. -/
theorem decrypt_seal {lib : Lib} (hl : lib.Lawful) {key nonce : Bytes} (pt : Bytes)
    (hk : aesKeySize key.length = true) (hn : nonce.length = gcmNonceSize) :
    decrypt lib key (nonce ++ lib.gcmSeal key nonce pt) = Res.ok (appendToNil pt) := by
  have h1 : (nonce ++ lib.gcmSeal key nonce pt).take gcmNonceSize = nonce := by
    rw [← hn]; simp
  have h2 : (nonce ++ lib.gcmSeal key nonce pt).drop gcmNonceSize = lib.gcmSeal key nonce pt := by
    rw [← hn]; simp
  have h3 : ¬ (nonce ++ lib.gcmSeal key nonce pt).length < gcmNonceSize := by
    simp [hn]
  simp only [decrypt, aesNewCipher, hk, if_true, h3, if_false, h1, h2, hl.gcm_open_seal key nonce pt hk hn]

theorem decrypt_some_ne_nil {lib : Lib} {key blob k : Bytes}
    (h : decrypt lib key blob = Res.ok (some k)) : k ≠ [] := by
  unfold decrypt at h
  split at h
  · simp at h
  · simp at h
  · split at h
    · simp at h
    · split at h
      · simp at h
      · rename_i pt _
        simp only [Res.ok.injEq] at h
        intro hk
        subst hk
        cases pt <;> simp [appendToNil] at h

/-- An input shorter than the nonce makes `decrypt` panic in its slice expressions. -/
theorem decrypt_short_input {lib : Lib} {key ct : Bytes} (hk : aesKeySize key.length = true)
    (hlen : ct.length < gcmNonceSize) : decrypt lib key ct = Res.panic GoPanic.sliceBounds := by
  simp [decrypt, aesNewCipher, hk, hlen]

/-- The function `decrypt` never returns `ErrWrongPassword`. -/
theorem decrypt_ne_wrong (lib : Lib) (key ct : Bytes) :
    decrypt lib key ct ≠ Res.err GoError.ErrWrongPassword := by
  unfold decrypt aesNewCipher
  split
  · rename_i e h
    split at h
    · simp at h
    · simp only [Res.err.injEq] at h
      subst h
      simp
  · simp
  · split
    · simp
    · split <;> simp

/-- Bytes after the 72nd do not reach Blowfish's key schedule. -/
theorem blowfishKeyStream_append {pw : Bytes} (x : Bytes) (h : 72 ≤ pw.length) :
    blowfishKeyStream (pw ++ x) = blowfishKeyStream pw := by
  unfold blowfishKeyStream
  apply List.map_congr_left
  intro i hi
  have hi72 : i < 72 := List.mem_range.mp hi
  have h1 : i % ((pw ++ x).length + 1) = i := Nat.mod_eq_of_lt (by simp; omega)
  have h2 : i % (pw.length + 1) = i := Nat.mod_eq_of_lt (by omega)
  rw [h1, h2]
  have hlt : i < pw.length := by omega
  simp [List.getD_eq_getElem?_getD, List.getElem?_append_left, hlt]

/-- A stored hash gives the same verdict on a password of 72 bytes or more and
on any extension of it. -/
theorem CompareHashAndPassword_append (lib : Lib) (hash : Bytes) {pw : Bytes} (x : Bytes)
    (h : 72 ≤ pw.length) :
    CompareHashAndPassword lib hash (pw ++ x) = CompareHashAndPassword lib hash pw := by
  simp [CompareHashAndPassword, blowfishKeyStream_append x h]

/-! ## What a successful call has done -/

/-- What a successful `Initialise` leaves in the two vault files. The `key` file
is written last; the `pw` file holds the hash when it is another file. -/
theorem Initialise_ok_inv {lib : Lib} {dir : String} {pw : Bytes} {k : Option Bytes} {u : Unit}
    {w w1 : World} (h : Initialise lib dir pw k w = (Res.ok u, w1)) :
    ∃ salt nonce key1, salt.length = 16 ∧ nonce.length = gcmNonceSize ∧
      (k = none → key1.length = 32) ∧ (∀ k', k = some k' → key1 = k') ∧
      (w.resolve (filepathJoin dir "pw") ≠ w.resolve (filepathJoin dir "key") →
        w1.files (filepathJoin dir "pw") =
          some (lib.bcryptEncode salt (blowfishKeyStream pw))) ∧
      w1.files (filepathJoin dir "key") =
        some (nonce ++ lib.gcmSeal (deriveKey0 lib pw) nonce key1) ∧
      (∀ p, w.resolve p ≠ w.resolve (filepathJoin dir "pw") →
        w.resolve p ≠ w.resolve (filepathJoin dir "key") → w1.files p = w.files p) ∧
      w1.fault = w.fault ∧ w1.resolve = w.resolve := by
  cases k with
  | none =>
    simp only [Initialise, bind_apply, GoM.bind_eq_ok, GenerateFromPassword_eq_ok,
      osCreate_eq_ok, fileWrite_eq_ok, encrypt_eq_ok, randRead_eq_ok] at h
    obtain ⟨hash, wa, ⟨_, hs, hhash, hwa⟩, f, wb, ⟨_, hf, hwb⟩, _, wc, ⟨_, hwc⟩, key1, wd,
      ⟨hk, hkey1, hwd⟩, blob, we, ⟨_, hn, _, hblob, hwe⟩, g, wf, ⟨_, hg, hwf⟩, _, hw1⟩ := h
    subst f g
    refine ⟨w.entropy.take 16, wd.entropy.take gcmNonceSize, key1, length_take_of_le hs,
      length_take_of_le hn, ?_, ?_, ?_, ?_, ?_, ?_, ?_⟩
    · intro _
      rw [hkey1]
      exact length_take_of_le hk
    · intro k' hk'
      cases hk'
    · intro hne
      subst hw1 hwf hwe hwd hwc hwb hwa hhash
      simp [setFile_files_other, hne]
    · subst hw1 hwf hwe hwd hwc hwb hwa hblob
      simp
    · intro p hp1 hp2
      subst hw1 hwf hwe hwd hwc hwb hwa
      simp [setFile_files_other, hp1, hp2]
    · subst hw1 hwf hwe hwd hwc hwb hwa
      simp
    · subst hw1 hwf hwe hwd hwc hwb hwa
      simp
  | some k0 =>
    simp only [Initialise, bind_apply, GoM.bind_eq_ok, GenerateFromPassword_eq_ok,
      osCreate_eq_ok, fileWrite_eq_ok, encrypt_eq_ok, pure_apply] at h
    obtain ⟨hash, wa, ⟨_, hs, hhash, hwa⟩, f, wb, ⟨_, hf, hwb⟩, _, wc, ⟨_, hwc⟩, key1, wd,
      hpure, blob, we, ⟨_, hn, _, hblob, hwe⟩, g, wf, ⟨_, hg, hwf⟩, _, hw1⟩ := h
    subst f g
    simp only [Prod.mk.injEq, Res.ok.injEq] at hpure
    obtain ⟨hkey1, hwd⟩ := hpure
    refine ⟨w.entropy.take 16, wd.entropy.take gcmNonceSize, key1, length_take_of_le hs,
      length_take_of_le hn, ?_, ?_, ?_, ?_, ?_, ?_, ?_⟩
    · intro hk'
      cases hk'
    · intro k' hk'
      cases hk'
      exact hkey1.symm
    · intro hne
      subst hw1 hwf hwe hwd hwc hwb hwa hhash
      simp [setFile_files_other, hne]
    · subst hw1 hwf hwe hwd hwc hwb hwa hblob
      simp
    · intro p hp1 hp2
      subst hw1 hwf hwe hwd hwc hwb hwa
      simp [setFile_files_other, hp1, hp2]
    · subst hw1 hwf hwe hwd hwc hwb hwa
      simp
    · subst hw1 hwf hwe hwd hwc hwb hwa
      simp

/-- The vault a successful `Initialise` leaves can be unlocked with its
password, when its two files are different files. -/
theorem Initialise_unlocks {lib : Lib} (hl : lib.Lawful) {dir : String} {pw : Bytes}
    {k : Option Bytes} {u : Unit} {w w1 : World}
    (h : Initialise lib dir pw k w = (Res.ok u, w1))
    (hvault : w.resolve (filepathJoin dir "pw") ≠ w.resolve (filepathJoin dir "key")) :
    ∃ hash blob key1, (k = none → key1.length = 32) ∧ (∀ k', k = some k' → key1 = k') ∧
      w1.files (filepathJoin dir "pw") = some hash ∧
      CompareHashAndPassword lib hash pw = true ∧
      w1.files (filepathJoin dir "key") = some blob ∧
      decrypt lib (deriveKey0 lib pw) blob = Res.ok (appendToNil key1) ∧
      (∀ p, w.resolve p ≠ w.resolve (filepathJoin dir "pw") →
        w.resolve p ≠ w.resolve (filepathJoin dir "key") → w1.files p = w.files p) ∧
      w1.fault = w.fault ∧ w1.resolve = w.resolve := by
  obtain ⟨salt, nonce, key1, _, hn, hk1, hk2, hpw, hkey, hframe, hfault, hres⟩ :=
    Initialise_ok_inv h
  exact ⟨_, _, key1, hk1, hk2, hpw hvault, hl.bcrypt_verify _ _, hkey,
    decrypt_seal hl key1 (deriveKey0_aes hl pw) hn, hframe, hfault, hres⟩

/-- The `key` file a successful `Initialise` leaves unwraps to the key it was
given or drew. -/
theorem Initialise_wraps {lib : Lib} (hl : lib.Lawful) {dir : String} {pw : Bytes}
    {k : Option Bytes} {u : Unit} {w w1 : World}
    (h : Initialise lib dir pw k w = (Res.ok u, w1)) :
    ∃ blob key1, (k = none → key1.length = 32) ∧ (∀ k', k = some k' → key1 = k') ∧
      w1.files (filepathJoin dir "key") = some blob ∧
      decrypt lib (deriveKey0 lib pw) blob = Res.ok (appendToNil key1) ∧
      w1.fault = w.fault := by
  obtain ⟨salt, nonce, key1, _, hn, hk1, hk2, _, hkey, _, hfault, _⟩ := Initialise_ok_inv h
  exact ⟨_, key1, hk1, hk2, hkey, decrypt_seal hl key1 (deriveKey0_aes hl pw) hn, hfault⟩

/-- What a successful `Encrypt` found in the vault and wrote at its destination. -/
theorem Encrypt_ok_inv {lib : Lib} {args : List String} {dir : String} {pw : Bytes} {u : Unit}
    {w w1 : World} (h : Encrypt lib args dir pw w = (Res.ok u, w1)) :
    ∃ hash blob k src P nonce,
      w.files (filepathJoin dir "pw") = some hash ∧
      CompareHashAndPassword lib hash pw = true ∧
      w.files (filepathJoin dir "key") = some blob ∧
      decrypt lib (deriveKey0 lib pw) blob = Res.ok k ∧
      aesKeySize (bytesOf k).length = true ∧
      args.get? 0 = some src ∧ w.files src = some P ∧ nonce.length = gcmNonceSize ∧
      w1.files (encryptDst src args) = some (nonce ++ lib.gcmSeal (bytesOf k) nonce P) ∧
      (∀ p, w.resolve p ≠ w.resolve (encryptDst src args) → w1.files p = w.files p) ∧
      w1.fault = w.fault ∧ w1.resolve = w.resolve := by
  simp only [Encrypt, bind_apply, GoM.bind_eq_ok, checkPassword_eq_ok] at h
  obtain ⟨ok, wa, ⟨_, _, ⟨hash, hpw, hok⟩, hwa⟩, h⟩ := h
  subst wa
  cases ok with
  | false => simp [GoM.fail] at h
  | true =>
    simp only [Bool.not_true, Bool.false_eq_true, if_false, bind_apply, GoM.bind_eq_ok,
      decryptKey1_eq_ok, index_eq_ok, osOpen_eq_ok, ioReadAll_eq_ok, encrypt_eq_ok,
      osCreate_eq_ok, fileWrite_eq_ok] at h
    obtain ⟨k, wb, ⟨_, _, ⟨blob, hkey, hd⟩, hwb⟩, src, wc, ⟨hsrc, hwc⟩, f, wd,
      ⟨_, _, hf, hwd⟩, P, we, ⟨_, hP, hwe⟩, b, wf, ⟨haes, hn, _, hb, hwf⟩, g, wg,
      ⟨_, hg, hwg⟩, _, hw1⟩ := h
    subst w1 wg wf we wd wc wb g f b
    refine ⟨hash, blob, k, src, P, w.entropy.take gcmNonceSize, hpw, hok.symm, hkey, hd, haes,
      hsrc, hP, length_take_of_le hn, ?_, ?_, ?_, ?_⟩
    · simp
    · intro p hp
      simp [setFile_files_other, hp]
    · simp
    · simp

/-- A successful `ChangePassword` authenticated, unwrapped `key1` and ran `Initialise` on it. -/
theorem ChangePassword_ok_inv {lib : Lib} {dir : String} {pwOld pwNew : Bytes} {u : Unit}
    {w w1 : World} (h : ChangePassword lib dir pwOld pwNew w = (Res.ok u, w1)) :
    ∃ hash k,
      w.files (filepathJoin dir "pw") = some hash ∧
      CompareHashAndPassword lib hash pwOld = true ∧
      decryptKey1 lib dir pwOld w = (Res.ok k, w) ∧
      Initialise lib dir pwNew k w = (Res.ok u, w1) := by
  simp only [ChangePassword, bind_apply, GoM.bind_eq_ok, checkPassword_eq_ok] at h
  obtain ⟨ok, wa, ⟨_, _, ⟨hash, hpw, hok⟩, hwa⟩, h⟩ := h
  subst wa
  cases ok with
  | false => simp [GoM.fail] at h
  | true =>
    simp only [Bool.not_true, Bool.false_eq_true, if_false, bind_apply, GoM.bind_eq_ok] at h
    obtain ⟨k, wb, hk, hinit⟩ := h
    have hwb : wb = w := (decryptKey1_eq_ok.mp hk).2.2.2
    subst wb
    exact ⟨hash, k, hpw, hok.symm, hk, hinit⟩

/-! ## Calls that succeed -/

theorem unlock_ok {lib : Lib} {dir : String} {pw hash blob : Bytes} {k : Option Bytes}
    {w : World} (hnf : w.NoFaults)
    (hpw : w.files (filepathJoin dir "pw") = some hash)
    (hv : CompareHashAndPassword lib hash pw = true)
    (hkey : w.files (filepathJoin dir "key") = some blob)
    (hd : decrypt lib (deriveKey0 lib pw) blob = Res.ok k) :
    checkPassword lib dir pw w = (Res.ok true, w) ∧
      decryptKey1 lib dir pw w = (Res.ok k, w) :=
  ⟨checkPassword_eq_ok.mpr ⟨hnf _, hnf _, ⟨hash, hpw, hv.symm⟩, rfl⟩,
    decryptKey1_eq_ok.mpr ⟨hnf _, hnf _, ⟨blob, hkey, hd⟩, rfl⟩⟩

theorem create_write_ok {p : String} {b : Bytes} {w : World}
    (h1 : w.fault (Syscall.osCreate p) = false) (h2 : w.fault (Syscall.fileWrite p) = false) :
    (osCreate p >>= fun f => fileWrite f b) w =
      (Res.ok (), (w.setFile p []).setFile p b) := by
  have hc : osCreate p w = (Res.ok p, w.setFile p []) := osCreate_eq_ok.mpr ⟨h1, rfl, rfl⟩
  rw [bind_ok hc]
  exact fileWrite_eq_ok.mpr ⟨by simpa using h2, by simp⟩

theorem Encrypt_ok {lib : Lib} {dir src : String} (rest : List String)
    {pw hash blob P : Bytes} {k : Option Bytes} {w : World} (hnf : w.NoFaults)
    (hpw : w.files (filepathJoin dir "pw") = some hash)
    (hv : CompareHashAndPassword lib hash pw = true)
    (hkey : w.files (filepathJoin dir "key") = some blob)
    (hd : decrypt lib (deriveKey0 lib pw) blob = Res.ok k)
    (haes : aesKeySize (bytesOf k).length = true)
    (hsrc : w.files src = some P) (hlen : P.length ≤ gcmMaxPlaintext)
    (hent : gcmNonceSize ≤ w.entropy.length) :
    ∃ w1 nonce, Encrypt lib (src :: rest) dir pw w = (Res.ok (), w1) ∧
      nonce.length = gcmNonceSize ∧
      w1.files (encryptDst src (src :: rest)) =
        some (nonce ++ lib.gcmSeal (bytesOf k) nonce P) ∧
      (∀ p, w.resolve p ≠ w.resolve (encryptDst src (src :: rest)) →
        w1.files p = w.files p) ∧
      w1.fault = w.fault ∧ w1.resolve = w.resolve := by
  obtain ⟨hc, hk⟩ := unlock_ok hnf hpw hv hkey hd
  have hidx : index (src :: rest) 0 w = (Res.ok src, w) := rfl
  have hopen : osOpen src w = (Res.ok src, w) := osOpen_eq_ok.mpr ⟨hnf _, ⟨P, hsrc⟩, rfl, rfl⟩
  have hread : ioReadAll src w = (Res.ok P, w) := ioReadAll_eq_ok.mpr ⟨hnf _, hsrc, rfl⟩
  have henc : encrypt lib (bytesOf k) P w =
      (Res.ok (w.entropy.take gcmNonceSize ++
        lib.gcmSeal (bytesOf k) (w.entropy.take gcmNonceSize) P), w.consume gcmNonceSize) :=
    encrypt_eq_ok.mpr ⟨haes, hent, hlen, rfl, rfl⟩
  refine ⟨((w.consume gcmNonceSize).setFile (encryptDst src (src :: rest)) []).setFile
      (encryptDst src (src :: rest))
      (w.entropy.take gcmNonceSize ++ lib.gcmSeal (bytesOf k) (w.entropy.take gcmNonceSize) P),
    w.entropy.take gcmNonceSize, ?_, length_take_of_le hent, ?_, ?_, ?_, ?_⟩
  · simp only [Encrypt]
    rw [bind_ok hc]
    simp only [Bool.not_true, Bool.false_eq_true, if_false]
    rw [bind_ok hk, bind_ok hidx, bind_ok hopen, bind_ok hread, bind_ok henc]
    exact create_write_ok (hnf _) (hnf _)
  · simp
  · intro p hp
    rw [setFile_files_other _ _ (by simpa using hp), setFile_files_other _ _ (by simpa using hp)]
    rfl
  · rfl
  · rfl

/-- On a source file over the message limit of GCM, `Encrypt` panics in
`gcm.Seal`, after the nonce was drawn and before anything is written. -/
theorem Encrypt_message_too_large (lib : Lib) {dir src : String} (rest : List String)
    {pw hash blob P : Bytes} {k : Option Bytes} {w : World} (hnf : w.NoFaults)
    (hpw : w.files (filepathJoin dir "pw") = some hash)
    (hv : CompareHashAndPassword lib hash pw = true)
    (hkey : w.files (filepathJoin dir "key") = some blob)
    (hd : decrypt lib (deriveKey0 lib pw) blob = Res.ok k)
    (haes : aesKeySize (bytesOf k).length = true)
    (hsrc : w.files src = some P) (hbig : gcmMaxPlaintext < P.length)
    (hent : gcmNonceSize ≤ w.entropy.length) :
    Encrypt lib (src :: rest) dir pw w =
      (Res.panic GoPanic.messageTooLarge, w.consume gcmNonceSize) := by
  obtain ⟨hc, hk⟩ := unlock_ok hnf hpw hv hkey hd
  have hidx : index (src :: rest) 0 w = (Res.ok src, w) := rfl
  have hopen : osOpen src w = (Res.ok src, w) := osOpen_eq_ok.mpr ⟨hnf _, ⟨P, hsrc⟩, rfl, rfl⟩
  have hread : ioReadAll src w = (Res.ok P, w) := ioReadAll_eq_ok.mpr ⟨hnf _, hsrc, rfl⟩
  have hrand : randRead gcmNonceSize w = (Res.ok (w.entropy.take gcmNonceSize),
      w.consume gcmNonceSize) := randRead_eq_ok.mpr ⟨hent, rfl, rfl⟩
  have henc : encrypt lib (bytesOf k) P w =
      (Res.panic GoPanic.messageTooLarge, w.consume gcmNonceSize) := by
    have hcipher : GoM.lift (aesNewCipher (bytesOf k)) w = (Res.ok (), w) := by
      simp [GoM.lift, aesNewCipher, haes]
    simp only [encrypt]
    rw [bind_ok hcipher, bind_ok hrand]
    simp [hbig, GoM.lift]
  simp only [Encrypt]
  rw [bind_ok hc]
  simp only [Bool.not_true, Bool.false_eq_true, if_false]
  rw [bind_ok hk, bind_ok hidx, bind_ok hopen, bind_ok hread, bind_panic henc]

theorem Decrypt_ok {lib : Lib} {dir src : String} (dst : String)
    {pw hash blob C : Bytes} {k pt : Option Bytes} {w : World} (hnf : w.NoFaults)
    (hpw : w.files (filepathJoin dir "pw") = some hash)
    (hv : CompareHashAndPassword lib hash pw = true)
    (hkey : w.files (filepathJoin dir "key") = some blob)
    (hd : decrypt lib (deriveKey0 lib pw) blob = Res.ok k)
    (hsrc : w.files src = some C)
    (hpt : decrypt lib (bytesOf k) C = Res.ok pt) :
    ∃ w1, Decrypt lib [src, dst] dir pw w = (Res.ok (), w1) ∧
      w1.files dst = some (bytesOf pt) ∧
      (∀ p, w.resolve p ≠ w.resolve dst → w1.files p = w.files p) ∧
      w1.fault = w.fault := by
  obtain ⟨hc, hk⟩ := unlock_ok hnf hpw hv hkey hd
  have hidx : index [src, dst] 0 w = (Res.ok src, w) := rfl
  have hidx1 : index [src, dst] 1 w = (Res.ok dst, w) := rfl
  have hopen : osOpen src w = (Res.ok src, w) := osOpen_eq_ok.mpr ⟨hnf _, ⟨C, hsrc⟩, rfl, rfl⟩
  have hread : ioReadAll src w = (Res.ok C, w) := ioReadAll_eq_ok.mpr ⟨hnf _, hsrc, rfl⟩
  have hdec : GoM.lift (decrypt lib (bytesOf k) C) w = (Res.ok pt, w) :=
    GoM.lift_eq_ok.mpr ⟨hpt, rfl⟩
  refine ⟨(w.setFile dst []).setFile dst (bytesOf pt), ?_, ?_, ?_, ?_⟩
  · simp only [Decrypt]
    rw [bind_ok hc]
    simp only [Bool.not_true, Bool.false_eq_true, if_false]
    rw [bind_ok hk, bind_ok hidx, bind_ok hopen, bind_ok hread, bind_ok hdec, bind_ok hidx1]
    exact create_write_ok (hnf _) (hnf _)
  · simp
  · intro p hp
    rw [setFile_files_other _ _ (by simpa using hp), setFile_files_other _ _ hp]
  · rfl

/-- When `decrypt` rejects the document, `Decrypt` returns that error before it
creates the output file: the world is unchanged. -/
theorem Decrypt_rejected_input {lib : Lib} {dir src : String} (rest : List String)
    {pw hash blob C : Bytes} {k : Option Bytes} {e : GoError} {w : World} (hnf : w.NoFaults)
    (hpw : w.files (filepathJoin dir "pw") = some hash)
    (hv : CompareHashAndPassword lib hash pw = true)
    (hkey : w.files (filepathJoin dir "key") = some blob)
    (hd : decrypt lib (deriveKey0 lib pw) blob = Res.ok k)
    (hsrc : w.files src = some C)
    (hrej : decrypt lib (bytesOf k) C = Res.err e) :
    Decrypt lib (src :: rest) dir pw w = (Res.err e, w) := by
  obtain ⟨hc, hk⟩ := unlock_ok hnf hpw hv hkey hd
  have hidx : index (src :: rest) 0 w = (Res.ok src, w) := rfl
  have hopen : osOpen src w = (Res.ok src, w) := osOpen_eq_ok.mpr ⟨hnf _, ⟨C, hsrc⟩, rfl, rfl⟩
  have hread : ioReadAll src w = (Res.ok C, w) := ioReadAll_eq_ok.mpr ⟨hnf _, hsrc, rfl⟩
  have hdec : GoM.lift (decrypt lib (bytesOf k) C) w = (Res.err e, w) := by
    rw [GoM.lift, hrej]
  simp only [Decrypt]
  rw [bind_ok hc]
  simp only [Bool.not_true, Bool.false_eq_true, if_false]
  rw [bind_ok hk, bind_ok hidx, bind_ok hopen, bind_ok hread, bind_err hdec]

/-! ## Wrong passwords -/

/-- When the stored hash does not verify the password, `Decrypt` returns `ErrWrongPassword` and changes nothing. -/
theorem Decrypt_wrong_password {lib : Lib} {dir : String} {W hash : Bytes} {w : World}
    (args : List String)
    (hf1 : w.fault (Syscall.osOpen (filepathJoin dir "pw")) = false)
    (hf2 : w.fault (Syscall.readAll (filepathJoin dir "pw")) = false)
    (hpw : w.files (filepathJoin dir "pw") = some hash)
    (hv : CompareHashAndPassword lib hash W = false) :
    Decrypt lib args dir W w = (Res.err GoError.ErrWrongPassword, w) := by
  have hc : checkPassword lib dir W w = (Res.ok false, w) :=
    checkPassword_eq_ok.mpr ⟨hf1, hf2, ⟨hash, hpw, hv.symm⟩, rfl⟩
  simp only [Decrypt]
  rw [bind_ok hc]
  rfl

theorem neverWrong_bind {α β : Type} {m : GoM α} {f : α → GoM β} (hm : NeverWrong m)
    (hf : ∀ a, NeverWrong (f a)) : NeverWrong (m >>= f) := by
  intro w
  simp only [bind_apply, GoM.bind]
  cases h : m w with
  | mk r w1 =>
    have := hm w
    rw [h] at this
    cases r with
    | ok a => exact hf a w1
    | err e => simpa using this
    | panic q => simp

theorem neverWrong_osOpen (p : String) : NeverWrong (osOpen p) := by
  intro w
  unfold osOpen
  split
  · simp
  · split <;> simp

theorem neverWrong_ioReadAll (p : String) : NeverWrong (ioReadAll p) := by
  intro w
  unfold ioReadAll
  split
  · simp
  · split <;> simp

theorem neverWrong_osCreate (p : String) : NeverWrong (osCreate p) := by
  intro w
  unfold osCreate
  split <;> simp

theorem neverWrong_fileWrite (p : String) (b : Bytes) : NeverWrong (fileWrite p b) := by
  intro w
  unfold fileWrite
  split <;> simp

theorem neverWrong_index (args : List String) (i : Nat) : NeverWrong (index args i) := by
  intro w
  unfold index
  cases args.get? i <;> simp [GoM.lift]

theorem neverWrong_decryptKey1 (lib : Lib) (dir : String) (pw : Bytes) :
    NeverWrong (decryptKey1 lib dir pw) := by
  unfold decryptKey1
  refine neverWrong_bind (neverWrong_osOpen _) fun f => ?_
  refine neverWrong_bind (neverWrong_ioReadAll _) fun blob => ?_
  intro w
  exact decrypt_ne_wrong lib _ _

/-- Once the stored hash verifies a password, `Decrypt` under that password
never reports `ErrWrongPassword`, whatever else goes wrong. -/
theorem Decrypt_verified_not_wrong {lib : Lib} {dir : String} {W : Bytes} {w : World}
    (args : List String) (hc : checkPassword lib dir W w = (Res.ok true, w)) :
    (Decrypt lib args dir W w).1 ≠ Res.err GoError.ErrWrongPassword := by
  simp only [Decrypt]
  rw [bind_ok hc]
  simp only [Bool.not_true, Bool.false_eq_true, if_false]
  refine neverWrong_bind (neverWrong_decryptKey1 _ _ _) (fun k => ?_) w
  refine neverWrong_bind (neverWrong_index _ _) fun src => ?_
  refine neverWrong_bind (neverWrong_osOpen _) fun f => ?_
  refine neverWrong_bind (neverWrong_ioReadAll _) fun ct => ?_
  refine neverWrong_bind (fun w => decrypt_ne_wrong lib _ _) fun pt => ?_
  refine neverWrong_bind (neverWrong_index _ _) fun dst => ?_
  exact neverWrong_bind (neverWrong_osCreate _) fun g => neverWrong_fileWrite _ _

/-- Bcrypt reads at most 72 bytes of a password: in a vault whose stored hash
verifies a password `W1` of 72 bytes or more, `Decrypt` under `W1` followed by
any further bytes is not rejected with `ErrWrongPassword`, whatever the
primitives are. -/
theorem Decrypt_longer_password_not_wrong (lib : Lib) (dir : String) (args : List String)
    (W1 x : Bytes) (w : World) (hlen : 72 ≤ W1.length)
    (hc : checkPassword lib dir W1 w = (Res.ok true, w)) :
    (Decrypt lib args dir (W1 ++ x) w).1 ≠ Res.err GoError.ErrWrongPassword := by
  refine Decrypt_verified_not_wrong args ?_
  obtain ⟨h1, h2, ⟨hash, hpw, hv⟩, _⟩ := checkPassword_eq_ok.mp hc
  exact checkPassword_eq_ok.mpr
    ⟨h1, h2, ⟨hash, hpw, by rw [CompareHashAndPassword_append lib hash x hlen]; exact hv⟩, rfl⟩

/-! ## Which files a call can change -/

theorem files_bind {α β : Type} {m : GoM α} {f : α → GoM β} {w : World} {p : String}
    (hm : (m w).2.files p = w.files p)
    (hf : ∀ a w1, m w = (Res.ok a, w1) → (f a w1).2.files p = w1.files p) :
    ((m >>= f) w).2.files p = w.files p := by
  simp only [bind_apply, GoM.bind]
  cases h : m w with
  | mk r w1 =>
    rw [h] at hm
    cases r with
    | ok a => exact (hf a w1 h).trans hm
    | err e => exact hm
    | panic q => exact hm

theorem world_bind {α β : Type} {m : GoM α} {f : α → GoM β} {w : World}
    (hm : (m w).2 = w) (hf : ∀ a, (f a w).2 = w) : ((m >>= f) w).2 = w := by
  simp only [bind_apply, GoM.bind]
  cases h : m w with
  | mk r w1 =>
    rw [h] at hm
    simp only at hm
    subst hm
    cases r with
    | ok a => exact hf a
    | err e => rfl
    | panic q => rfl

theorem osOpen_world (p : String) (w : World) : (osOpen p w).2 = w := by
  unfold osOpen
  split
  · rfl
  · split <;> rfl

theorem ioReadAll_world (p : String) (w : World) : (ioReadAll p w).2 = w := by
  unfold ioReadAll
  split
  · rfl
  · split <;> rfl

theorem index_world (args : List String) (i : Nat) (w : World) : (index args i w).2 = w := by
  unfold index
  cases args.get? i <;> rfl

theorem checkPassword_world (lib : Lib) (dir : String) (pw : Bytes) (w : World) :
    (checkPassword lib dir pw w).2 = w := by
  unfold checkPassword
  refine world_bind (osOpen_world _ _) fun f => ?_
  exact world_bind (ioReadAll_world _ _) fun h => rfl

theorem decryptKey1_world (lib : Lib) (dir : String) (pw : Bytes) (w : World) :
    (decryptKey1 lib dir pw w).2 = w := by
  unfold decryptKey1
  refine world_bind (osOpen_world _ _) fun f => ?_
  exact world_bind (ioReadAll_world _ _) fun h => rfl

theorem snd_eq {α : Type} {m : GoM α} {w w1 : World} {r : Res α} (h : m w = (r, w1)) :
    (m w).2 = w1 := by
  rw [h]

theorem randRead_files (n : Nat) (w : World) : (randRead n w).2.files = w.files := by
  unfold randRead
  split <;> rfl

theorem randRead_resolve (n : Nat) (w : World) : (randRead n w).2.resolve = w.resolve := by
  unfold randRead
  split <;> rfl

theorem encrypt_files (lib : Lib) (key pt : Bytes) (w : World) (p : String) :
    (encrypt lib key pt w).2.files p = w.files p := by
  unfold encrypt
  refine files_bind rfl fun _ w1 h1 => ?_
  refine files_bind (by rw [randRead_files]) fun _ _ _ => ?_
  split <;> rfl

theorem encrypt_resolve (lib : Lib) (key pt : Bytes) (w : World) :
    (encrypt lib key pt w).2.resolve = w.resolve := by
  unfold encrypt
  simp only [bind_apply, GoM.bind, GoM.lift]
  cases aesNewCipher key with
  | err e => rfl
  | panic q => rfl
  | ok u =>
    simp only
    cases h : randRead gcmNonceSize w with
    | mk r w1 =>
      have hr : w1.resolve = w.resolve := by
        have := randRead_resolve gcmNonceSize w
        rw [h] at this
        exact this
      cases r with
      | err e => exact hr
      | panic q => exact hr
      | ok nonce =>
        simp only
        split <;> exact hr

theorem GenerateFromPassword_files (lib : Lib) (pw : Bytes) (w : World) :
    (GenerateFromPassword lib pw w).2.files = w.files := by
  unfold GenerateFromPassword
  split
  · rfl
  · funext p
    exact files_bind (by rw [randRead_files]) fun _ _ _ => rfl

/-- Creating and writing one file leaves every other file as it was. -/
theorem create_write_files {p q : String} (b : Bytes) (w : World)
    (h : w.resolve q ≠ w.resolve p) :
    ((osCreate p >>= fun f => fileWrite f b) w).2.files q = w.files q := by
  refine files_bind ?_ fun f w1 hf => ?_
  · unfold osCreate
    split
    · rfl
    · exact setFile_files_other w [] h
  · obtain ⟨_, rfl, hw1⟩ := osCreate_eq_ok.mp hf
    unfold fileWrite
    split
    · rfl
    · exact setFile_files_other w1 _ (by rw [hw1]; exact h)

/-- The call `Encrypt` changes no file but the one its destination names. -/
theorem Encrypt_files {lib : Lib} {args : List String} {dir : String} {pw : Bytes} {w : World}
    {p : String}
    (hp : ∀ src, args.get? 0 = some src → w.resolve p ≠ w.resolve (encryptDst src args)) :
    (Encrypt lib args dir pw w).2.files p = w.files p := by
  unfold Encrypt
  refine files_bind (by rw [checkPassword_world]) fun ok w1 h1 => ?_
  have e1 : w1 = w := (snd_eq h1).symm.trans (checkPassword_world _ _ _ _)
  subst e1
  split
  · rfl
  · refine files_bind (by rw [decryptKey1_world]) fun k w2 h2 => ?_
    have e2 : w2 = w1 := (snd_eq h2).symm.trans (decryptKey1_world _ _ _ _)
    subst e2
    refine files_bind (by rw [index_world]) fun src w3 hsrc => ?_
    have e3 : w3 = w2 := (snd_eq hsrc).symm.trans (index_world _ _ _)
    subst e3
    refine files_bind (by rw [osOpen_world]) fun f w4 h4 => ?_
    have e4 : w4 = w3 := (snd_eq h4).symm.trans (osOpen_world _ _)
    subst e4
    refine files_bind (by rw [ioReadAll_world]) fun pt w5 h5 => ?_
    have e5 : w5 = w4 := (snd_eq h5).symm.trans (ioReadAll_world _ _)
    subst e5
    refine files_bind (encrypt_files _ _ _ _ _) fun b w6 h6 => ?_
    have e6 : w6.resolve = w5.resolve := by
      have := encrypt_resolve lib (bytesOf k) pt w5
      rw [h6] at this
      exact this
    exact create_write_files b w6 (by rw [e6]; exact hp src (index_eq_ok.mp hsrc).1)

/-- The call `Decrypt` changes no file but the one `args[1]` names. -/
theorem Decrypt_files {lib : Lib} {args : List String} {dir : String} {pw : Bytes} {w : World}
    {p : String} (hp : ∀ dst, args.get? 1 = some dst → w.resolve p ≠ w.resolve dst) :
    (Decrypt lib args dir pw w).2.files p = w.files p := by
  unfold Decrypt
  refine files_bind (by rw [checkPassword_world]) fun ok w1 h1 => ?_
  have e1 : w1 = w := (snd_eq h1).symm.trans (checkPassword_world _ _ _ _)
  subst e1
  split
  · rfl
  · refine files_bind (by rw [decryptKey1_world]) fun k w2 h2 => ?_
    have e2 : w2 = w1 := (snd_eq h2).symm.trans (decryptKey1_world _ _ _ _)
    subst e2
    refine files_bind (by rw [index_world]) fun src w3 hsrc => ?_
    have e3 : w3 = w2 := (snd_eq hsrc).symm.trans (index_world _ _ _)
    subst e3
    refine files_bind (by rw [osOpen_world]) fun f w4 h4 => ?_
    have e4 : w4 = w3 := (snd_eq h4).symm.trans (osOpen_world _ _)
    subst e4
    refine files_bind (by rw [ioReadAll_world]) fun ct w5 h5 => ?_
    have e5 : w5 = w4 := (snd_eq h5).symm.trans (ioReadAll_world _ _)
    subst e5
    refine files_bind rfl fun pt w6 h6 => ?_
    have e6 : w6 = w5 := (GoM.lift_eq_ok.mp h6).2
    subst e6
    refine files_bind (by rw [index_world]) fun dst w7 hdst => ?_
    have e7 : w7 = w6 := (snd_eq hdst).symm.trans (index_world _ _ _)
    subst e7
    exact create_write_files _ w7 (hp dst (index_eq_ok.mp hdst).1)

/-- When hashing the password fails, or the `pw` file cannot be created, `Initialise` fails and changes no file. -/
theorem Initialise_fails_early {lib : Lib} {dir : String} {pw : Bytes} {k : Option Bytes}
    {w : World}
    (h : (∀ hash, (GenerateFromPassword lib pw w).1 ≠ Res.ok hash) ∨
      w.fault (Syscall.osCreate (filepathJoin dir "pw")) = true) :
    (∀ u, (Initialise lib dir pw k w).1 ≠ Res.ok u) ∧
      (Initialise lib dir pw k w).2.files = w.files := by
  have hcreate : ∀ w1 : World, w1.fault = w.fault →
      w.fault (Syscall.osCreate (filepathJoin dir "pw")) = true →
      osCreate (filepathJoin dir "pw") w1 =
        (Res.err (GoError.PathError (Syscall.osCreate (filepathJoin dir "pw"))), w1) := by
    intro w1 hw1 hf
    simp [osCreate, hw1, hf]
  simp only [Initialise, bind_apply]
  cases hg : GenerateFromPassword lib pw w with
  | mk r w1 =>
    have hfiles : w1.files = w.files := by
      have := GenerateFromPassword_files lib pw w
      rw [hg] at this
      exact this
    cases r with
    | err e => simp [GoM.bind, hg, hfiles]
    | panic q => simp [GoM.bind, hg, hfiles]
    | ok hash =>
      have hf : w.fault (Syscall.osCreate (filepathJoin dir "pw")) = true := by
        rcases h with h | h
        · exact absurd (by rw [hg]) (h hash)
        · exact h
      have hw1 : w1.fault = w.fault := by
        obtain ⟨_, _, _, rfl⟩ := GenerateFromPassword_eq_ok.mp hg
        rfl
      rw [GoM.bind_of_ok hg, bind_err (hcreate w1 hw1 hf)]
      exact ⟨fun u => by simp, hfiles⟩

/-! ## Two edge cases, for every instance of the packages -/

/-- On a vault from which `decryptKey1` unwraps nil, a successful
`ChangePassword` leaves a vault that wraps 32 new bytes, whatever the
primitives are. -/
theorem ChangePassword_nil_key_regenerates (lib : Lib) (hl : lib.Lawful) (dir : String)
    (Wold Wnew : Bytes) (w0 w1 : World)
    (hk : decryptKey1 lib dir Wold w0 = (Res.ok none, w0))
    (hchg : ChangePassword lib dir Wold Wnew w0 = (Res.ok (), w1)) :
    ∃ key1, key1.length = 32 ∧ decryptKey1 lib dir Wnew w1 = (Res.ok (some key1), w1) := by
  obtain ⟨hf1, hf2, _, _⟩ := decryptKey1_eq_ok.mp hk
  obtain ⟨hash', k', _, _, hk', hinit⟩ := ChangePassword_ok_inv hchg
  rw [hk] at hk'
  simp only [Prod.mk.injEq, Res.ok.injEq, and_true] at hk'
  subst k'
  obtain ⟨blobN, key1, hlen, _, hkeyN, hdN, hfaultN⟩ := Initialise_wraps hl hinit
  have h32 : key1.length = 32 := hlen rfl
  have hne : key1 ≠ [] := by
    intro h
    rw [h] at h32
    simp at h32
  rw [appendToNil_of_ne_nil hne] at hdN
  exact ⟨key1, h32, decryptKey1_eq_ok.mpr ⟨by rw [hfaultN]; exact hf1, by rw [hfaultN]; exact hf2,
    ⟨blobN, hkeyN, hdN⟩, rfl⟩⟩

/-- When the `key` file cannot be created but every earlier step works,
`Initialise` returns the error after the `pw` file holds the new hash, and the
`key` file still holds what it held, whatever the primitives are. -/
theorem Initialise_key_create_fault (lib : Lib) (hl : lib.Lawful) (dir : String)
    (pw key1 hash : Bytes) (w w1 : World)
    (hgen : GenerateFromPassword lib pw w = (Res.ok hash, w1))
    (hc : w.fault (Syscall.osCreate (filepathJoin dir "pw")) = false)
    (hw : w.fault (Syscall.fileWrite (filepathJoin dir "pw")) = false)
    (hent : gcmNonceSize ≤ w1.entropy.length) (hklen : key1.length ≤ gcmMaxPlaintext)
    (hvault : w.resolve (filepathJoin dir "pw") ≠ w.resolve (filepathJoin dir "key"))
    (hkf : w.fault (Syscall.osCreate (filepathJoin dir "key")) = true) :
    (Initialise lib dir pw (some key1) w).1 =
        Res.err (GoError.PathError (Syscall.osCreate (filepathJoin dir "key"))) ∧
      (Initialise lib dir pw (some key1) w).2.files (filepathJoin dir "pw") = some hash ∧
      (Initialise lib dir pw (some key1) w).2.files (filepathJoin dir "key") =
        w.files (filepathJoin dir "key") := by
  have hw1 : w1 = w.consume 16 := (GenerateFromPassword_eq_ok.mp hgen).2.2.2
  subst hw1
  have hcreate : osCreate (filepathJoin dir "pw") (w.consume 16) =
      (Res.ok (filepathJoin dir "pw"), (w.consume 16).setFile (filepathJoin dir "pw") []) :=
    osCreate_eq_ok.mpr ⟨hc, rfl, rfl⟩
  have hwrite : fileWrite (filepathJoin dir "pw") hash
      ((w.consume 16).setFile (filepathJoin dir "pw") []) =
      (Res.ok (), ((w.consume 16).setFile (filepathJoin dir "pw") []).setFile
        (filepathJoin dir "pw") hash) :=
    fileWrite_eq_ok.mpr ⟨hw, by simp⟩
  have henc : encrypt lib (deriveKey0 lib pw) key1
      (((w.consume 16).setFile (filepathJoin dir "pw") []).setFile
        (filepathJoin dir "pw") hash) =
      (Res.ok (List.take gcmNonceSize (w.consume 16).entropy ++
          lib.gcmSeal (deriveKey0 lib pw) (List.take gcmNonceSize (w.consume 16).entropy) key1),
        (((w.consume 16).setFile (filepathJoin dir "pw") []).setFile
          (filepathJoin dir "pw") hash).consume gcmNonceSize) :=
    encrypt_eq_ok.mpr ⟨deriveKey0_aes hl pw, hent, hklen, rfl, rfl⟩
  have hkc : osCreate (filepathJoin dir "key")
      ((((w.consume 16).setFile (filepathJoin dir "pw") []).setFile
        (filepathJoin dir "pw") hash).consume gcmNonceSize) =
      (Res.err (GoError.PathError (Syscall.osCreate (filepathJoin dir "key"))),
        (((w.consume 16).setFile (filepathJoin dir "pw") []).setFile
          (filepathJoin dir "pw") hash).consume gcmNonceSize) := by
    simp [osCreate, hkf]
  have hrun : Initialise lib dir pw (some key1) w =
      (Res.err (GoError.PathError (Syscall.osCreate (filepathJoin dir "key"))),
        (((w.consume 16).setFile (filepathJoin dir "pw") []).setFile
          (filepathJoin dir "pw") hash).consume gcmNonceSize) := by
    simp only [Initialise]
    rw [bind_ok hgen, bind_ok hcreate, bind_ok hwrite]
    simp only [bind_apply, pure_apply, GoM.bind]
    rw [henc]
    simp only
    rw [hkc]
  rw [hrun]
  refine ⟨rfl, by simp, ?_⟩
  rw [consume_files, setFile_files_other _ _ (by simpa using hvault.symm),
    setFile_files_other _ _ (by simpa using hvault.symm)]
  rfl

/-! ## The claims -/

set_option maxRecDepth 100000

/-- C1 (round trip), as amended. Let `Initialise(dir, W, nil)` have succeeded on a
vault whose two files are different files, and let `w` be a fault-free world
that still holds the two vault files as that call left them, holds at `src` a
plaintext `P` within the message limit of GCM, and can deliver one more nonce.
Then `Encrypt` of `src` under `W`, to a destination that names neither vault
file, succeeds, and `Decrypt` of that destination under `W` succeeds and leaves
exactly `P` in the output file. -/
theorem C1_round_trip (lib : Lib) (hl : lib.Lawful) (dir src out : String)
    (rest : List String) (W P : Bytes) (w0 w1 w : World)
    (hinit : Initialise lib dir W none w0 = (Res.ok (), w1))
    (hvault : w0.resolve (filepathJoin dir "pw") ≠ w0.resolve (filepathJoin dir "key"))
    (hpw : w.files (filepathJoin dir "pw") = w1.files (filepathJoin dir "pw"))
    (hkey : w.files (filepathJoin dir "key") = w1.files (filepathJoin dir "key"))
    (hnf : w.NoFaults) (hent : gcmNonceSize ≤ w.entropy.length)
    (hsrc : w.files src = some P) (hlen : P.length ≤ gcmMaxPlaintext)
    (hd1 : w.resolve (encryptDst src (src :: rest)) ≠ w.resolve (filepathJoin dir "pw"))
    (hd2 : w.resolve (encryptDst src (src :: rest)) ≠ w.resolve (filepathJoin dir "key")) :
    ∃ w2 w3, Encrypt lib (src :: rest) dir W w = (Res.ok (), w2) ∧
      Decrypt lib [encryptDst src (src :: rest), out] dir W w2 = (Res.ok (), w3) ∧
      w3.files out = some P := by
  obtain ⟨hash, blob, key1, hk32, _, hpw1, hv, hkey1, hd, _, _, _⟩ :=
    Initialise_unlocks hl hinit hvault
  have hk32 : key1.length = 32 := hk32 rfl
  have haes : aesKeySize key1.length = true := by simp [hk32, aesKeySize]
  have hk : appendToNil key1 = some key1 := appendToNil_of_ne_nil (aesKeySize_ne_nil haes)
  rw [hk] at hd
  rw [← hpw] at hpw1
  rw [← hkey] at hkey1
  obtain ⟨w2, nonce, henc, hn, hdst, hframe, hfault, _⟩ :=
    Encrypt_ok rest hnf hpw1 hv hkey1 hd haes hsrc hlen hent
  have hnf2 : w2.NoFaults := fun c => by rw [hfault]; exact hnf c
  obtain ⟨w3, hdec, hout, _, _⟩ :=
    Decrypt_ok out hnf2 ((hframe _ hd1.symm).trans hpw1) hv
      ((hframe _ hd2.symm).trans hkey1) hd hdst (decrypt_seal hl P haes hn)
  exact ⟨w2, w3, henc, hdec, by rw [hout, bytesOf_appendToNil]⟩

/-- C1 as amended, at the vault `vault`, password `Pass1` and document `hello`. -/
theorem C1_round_trip_witness :
    ∃ w2 w3, Encrypt miniLib ["doc"] "vault" pwA worldDoc = (Res.ok (), w2) ∧
      Decrypt miniLib ["doc.crypt", "doc.out"] "vault" pwA w2 = (Res.ok (), w3) ∧
      w3.files "doc.out" = some docA :=
  C1_round_trip miniLib miniLib_lawful "vault" "doc" "doc.out" [] pwA docA world0 worldInit
    worldDoc (Prod.ext (by decide) rfl) (by decide) (by decide) (by decide) (fun _ => rfl)
    (by decide) (by decide) (by decide) (by decide) (by decide)

/-- C1 as stated fails, in two ways. `Encrypt(["doc", "vault/pw"], "vault",
Pass1)` succeeds and puts the ciphertext where the password hash was, and
`Decrypt` of that resulting file under the same password returns
`ErrWrongPassword`. And on a source file one byte over the message limit of GCM
`Encrypt` panics in `gcm.Seal`. -/
theorem C1_counterexample :
    (Initialise miniLib "vault" pwA none world0).1 = Res.ok () ∧
    (Encrypt miniLib ["doc", "vault/pw"] "vault" pwA worldDoc).1 = Res.ok () ∧
    (Decrypt miniLib ["vault/pw", "doc.out"] "vault" pwA worldPwDst).1 =
      Res.err GoError.ErrWrongPassword ∧
    (Encrypt miniLib ["big"] "vault" pwA worldBig).1 = Res.panic GoPanic.messageTooLarge :=
  ⟨by decide, by decide, by decide,
    congrArg Prod.fst (Encrypt_message_too_large miniLib [] (fun _ => rfl)
      (show worldBig.files (filepathJoin "vault" "pw") =
        some ((worldInit.files "vault/pw").getD []) from by decide)
      (by decide)
      (show worldBig.files (filepathJoin "vault" "key") =
        some ((worldInit.files "vault/key").getD []) from by decide)
      (show decrypt miniLib (deriveKey0 miniLib pwA) ((worldInit.files "vault/key").getD []) =
        Res.ok (some ((List.range 32).map fun i => UInt8.ofNat (i + 16))) from by decide)
      (by decide) (setFile_files_same worldInit "big" _)
      (by simp [bigDoc, List.length_replicate]) (by decide))⟩

/-- C2 (wrong-password rejection), as amended. After `Encrypt` under `W1` succeeded
in a vault, to a destination that does not name the `pw` file, `Decrypt` under
every password `W2` that the stored bcrypt hash does not verify returns
`ErrWrongPassword` and changes nothing, whatever its arguments are. -/
theorem C2_wrong_password_rejected (lib : Lib) (dir src : String) (rest args : List String)
    (W1 W2 : Bytes) (w w1 : World)
    (henc : Encrypt lib (src :: rest) dir W1 w = (Res.ok (), w1))
    (hd : w.resolve (encryptDst src (src :: rest)) ≠ w.resolve (filepathJoin dir "pw"))
    (hrej : ∀ hash, w.files (filepathJoin dir "pw") = some hash →
      CompareHashAndPassword lib hash W2 = false) :
    Decrypt lib args dir W2 w1 = (Res.err GoError.ErrWrongPassword, w1) := by
  have henc' := henc
  simp only [Encrypt, bind_apply, GoM.bind_eq_ok, checkPassword_eq_ok] at henc'
  obtain ⟨_, _, ⟨hf1, hf2, _, _⟩, _⟩ := henc'
  obtain ⟨hash, blob, k, src', P', nonce, hpw, _, _, _, _, hsrc', _, _, _, hframe, hfault, _⟩ :=
    Encrypt_ok_inv henc
  simp only [List.get?, Option.some.injEq] at hsrc'
  subst src'
  refine Decrypt_wrong_password args (by rw [hfault]; exact hf1) (by rw [hfault]; exact hf2)
    ((hframe _ hd.symm).trans hpw) (hrej hash hpw)

/-- C2 as amended, at the passwords `Pass1` and `Pass2`. -/
theorem C2_wrong_password_rejected_witness :
    Decrypt miniLib ["doc.crypt", "doc.out"] "vault" pwB worldEnc =
      (Res.err GoError.ErrWrongPassword, worldEnc) :=
  C2_wrong_password_rejected miniLib "vault" "doc" [] ["doc.crypt", "doc.out"] pwA pwB worldDoc
    worldEnc (Prod.ext (by decide) rfl) (by decide)
    (fun hash h => by
      have h2 : hash = (worldDoc.files "vault/pw").getD [] := by
        rw [show filepathJoin "vault" "pw" = "vault/pw" from by decide] at h
        rw [h]; rfl
      subst h2
      decide)

/-- C2 as stated fails. The vault is initialised and the document encrypted with
a password of 72 bytes; `Decrypt` under that password followed by one more
byte, a different password, passes the bcrypt check and fails in `gcm.Open`
with the authentication error, not with `ErrWrongPassword`. -/
theorem C2_counterexample :
    pwLonger ≠ pwLong ∧
    (Initialise miniLib "vault" pwLong none world0).1 = Res.ok () ∧
    (Encrypt miniLib ["doc"] "vault" pwLong worldLong).1 = Res.ok () ∧
    (Decrypt miniLib ["doc.crypt", "doc.out"] "vault" pwLonger worldLongEnc).1 =
      Res.err GoError.errOpen := by
  decide

/-- C3 (password change preserves content). In a fault-free world whose two
vault files are different files, let `Encrypt` under `Wold` of a source file
holding `P` have succeeded, to a destination that names neither vault file, and
let `ChangePassword(dir, Wold, Wnew)` then have succeeded. Then the ciphertext
file is what `Encrypt` wrote, and `Decrypt` of it under `Wnew` succeeds and
leaves exactly `P` in the output file. -/
theorem C3_change_password_preserves_content (lib : Lib) (hl : lib.Lawful)
    (dir src out : String) (rest : List String) (Wold Wnew P : Bytes) (w0 w1 w2 : World)
    (hnf : w0.NoFaults) (hsrc : w0.files src = some P)
    (hvault : w0.resolve (filepathJoin dir "pw") ≠ w0.resolve (filepathJoin dir "key"))
    (henc : Encrypt lib (src :: rest) dir Wold w0 = (Res.ok (), w1))
    (hd1 : w0.resolve (encryptDst src (src :: rest)) ≠ w0.resolve (filepathJoin dir "pw"))
    (hd2 : w0.resolve (encryptDst src (src :: rest)) ≠ w0.resolve (filepathJoin dir "key"))
    (hchg : ChangePassword lib dir Wold Wnew w1 = (Res.ok (), w2)) :
    w2.files (encryptDst src (src :: rest)) = w1.files (encryptDst src (src :: rest)) ∧
    ∃ w3, Decrypt lib [encryptDst src (src :: rest), out] dir Wnew w2 = (Res.ok (), w3) ∧
      w3.files out = some P := by
  obtain ⟨hash, blob, k, src', P', nonce, _, _, hkey, hd, haes, hsrc', hP', hn, hdst, hframe,
    hfault, hres⟩ := Encrypt_ok_inv henc
  simp only [List.get?, Option.some.injEq] at hsrc'
  subst src'
  rw [hsrc] at hP'
  simp only [Option.some.injEq] at hP'
  subst P'
  obtain ⟨hash', k', _, _, hk', hinit⟩ := ChangePassword_ok_inv hchg
  obtain ⟨_, _, ⟨blob', hkey', hd'⟩, _⟩ := decryptKey1_eq_ok.mp hk'
  rw [hframe _ hd2.symm, hkey] at hkey'
  simp only [Option.some.injEq] at hkey'
  subst blob'
  rw [hd] at hd'
  simp only [Res.ok.injEq] at hd'
  subst k'
  obtain ⟨key1, rfl⟩ : ∃ key1, k = some key1 := by
    cases k with
    | none => simp [bytesOf, aesKeySize] at haes
    | some key1 => exact ⟨key1, rfl⟩
  simp only [bytesOf, Option.getD_some] at haes hdst
  obtain ⟨hashN, blobN, key1', _, hk2, hpwN, hvN, hkeyN, hdN, hframeN, hfaultN, _⟩ :=
    Initialise_unlocks hl hinit (by rw [hres]; exact hvault)
  have hkk : key1' = key1 := hk2 key1 rfl
  subst hkk
  rw [appendToNil_of_ne_nil (aesKeySize_ne_nil haes)] at hdN
  have hkeep : w2.files (encryptDst src (src :: rest)) =
      w1.files (encryptDst src (src :: rest)) :=
    hframeN _ (by rw [hres]; exact hd1) (by rw [hres]; exact hd2)
  have hnf2 : w2.NoFaults := fun c => by rw [hfaultN, hfault]; exact hnf c
  obtain ⟨w3, hdec, hout, _, _⟩ :=
    Decrypt_ok out hnf2 hpwN hvN hkeyN hdN (hkeep.trans hdst)
      (decrypt_seal hl P haes hn)
  exact ⟨hkeep, w3, hdec, by rw [hout, bytesOf_appendToNil]⟩

/-- C3 at the vault `vault`, passwords `Pass1` and `Pass2`, and document `hello`. -/
theorem C3_change_password_preserves_content_witness :
    worldChanged.files "doc.crypt" = worldEnc.files "doc.crypt" ∧
    ∃ w3, Decrypt miniLib ["doc.crypt", "doc.out"] "vault" pwB worldChanged = (Res.ok (), w3) ∧
      w3.files "doc.out" = some docA :=
  C3_change_password_preserves_content miniLib miniLib_lawful "vault" "doc" "doc.out" [] pwA pwB
    docA worldDoc worldEnc worldChanged (fun _ => rfl) (by decide) (by decide)
    (Prod.ext (by decide) rfl) (by decide) (by decide) (Prod.ext (by decide) rfl)

/-- C4 (the old password is revoked), as amended. Let no bcrypt hash of `Wnew`
verify `Wold`, and let the vault's two files be different files. Then after
`ChangePassword(dir, Wold, Wnew)` succeeded, `Decrypt` under `Wold` returns
`ErrWrongPassword` and changes nothing, whatever its arguments are. -/
theorem C4_old_password_revoked (lib : Lib) (dir : String) (args : List String)
    (Wold Wnew : Bytes) (w0 w1 : World)
    (hchg : ChangePassword lib dir Wold Wnew w0 = (Res.ok (), w1))
    (hvault : w0.resolve (filepathJoin dir "pw") ≠ w0.resolve (filepathJoin dir "key"))
    (hrej : ∀ salt, salt.length = 16 →
      CompareHashAndPassword lib (lib.bcryptEncode salt (blowfishKeyStream Wnew)) Wold =
        false) :
    Decrypt lib args dir Wold w1 = (Res.err GoError.ErrWrongPassword, w1) := by
  have hchg' := hchg
  simp only [ChangePassword, bind_apply, GoM.bind_eq_ok, checkPassword_eq_ok] at hchg'
  obtain ⟨_, _, ⟨hf1, hf2, _, _⟩, _⟩ := hchg'
  obtain ⟨_, k, _, _, _, hinit⟩ := ChangePassword_ok_inv hchg
  obtain ⟨salt, nonce, key1, hs, _, _, _, hpw, _, _, hfault, _⟩ := Initialise_ok_inv hinit
  exact Decrypt_wrong_password args (by rw [hfault]; exact hf1) (by rw [hfault]; exact hf2)
    (hpw hvault) (hrej salt hs)

/-- C4 as amended, at the passwords `Pass1` and `Pass2`: no hash of `Pass2`
verifies `Pass1`. -/
theorem C4_old_password_revoked_witness :
    Decrypt miniLib ["doc.crypt", "doc.out"] "vault" pwA worldChanged =
      (Res.err GoError.ErrWrongPassword, worldChanged) :=
  C4_old_password_revoked miniLib "vault" ["doc.crypt", "doc.out"] pwA pwB worldEnc worldChanged
    (Prod.ext (by decide) rfl) (by decide) (fun _ _ => rfl)

/-- C4 as stated fails, in two ways. For `Wnew = Wold`,
`ChangePassword("vault", Pass1, Pass1)` succeeds, and `Decrypt` under `Pass1`
then succeeds and writes the document. And for the different passwords
`Wold = "ab\0ab"` and `Wnew = "ab"`, which bcrypt reads alike, `ChangePassword`
succeeds and `Decrypt` under `Wold` then passes the bcrypt check and fails in
`gcm.Open` with the authentication error, not with `ErrWrongPassword`. -/
theorem C4_counterexample :
    ((ChangePassword miniLib "vault" pwA pwA worldEnc).1 = Res.ok () ∧
      (Decrypt miniLib ["doc.crypt", "doc.out"] "vault" pwA worldSame).1 = Res.ok () ∧
      (Decrypt miniLib ["doc.crypt", "doc.out"] "vault" pwA worldSame).2.files "doc.out" =
        some docA) ∧
    (pwRep ≠ pwAb ∧
      (Initialise miniLib "vault" pwRep none world0).1 = Res.ok () ∧
      (Encrypt miniLib ["doc"] "vault" pwRep worldRep).1 = Res.ok () ∧
      (ChangePassword miniLib "vault" pwRep pwAb worldRepEnc).1 = Res.ok () ∧
      (Decrypt miniLib ["doc.crypt", "doc.out"] "vault" pwRep worldRepChanged).1 =
        Res.err GoError.errOpen) := by
  decide

/-- C5 (master key invariance), as amended. If `decryptKey1` unwraps a non-nil
`key1` under `Wold` and `ChangePassword(dir, Wold, Wnew)` succeeds, then
`decryptKey1` unwraps that same `key1` under `Wnew` from the vault after the
change. -/
theorem C5_key1_invariant (lib : Lib) (hl : lib.Lawful) (dir : String) (Wold Wnew k : Bytes)
    (w0 w1 : World)
    (hk : decryptKey1 lib dir Wold w0 = (Res.ok (some k), w0))
    (hchg : ChangePassword lib dir Wold Wnew w0 = (Res.ok (), w1)) :
    decryptKey1 lib dir Wnew w1 = (Res.ok (some k), w1) := by
  obtain ⟨hf1, hf2, ⟨blob, _, hd⟩, _⟩ := decryptKey1_eq_ok.mp hk
  obtain ⟨hash', k', _, _, hk', hinit⟩ := ChangePassword_ok_inv hchg
  rw [hk] at hk'
  simp only [Prod.mk.injEq, Res.ok.injEq, and_true] at hk'
  subst k'
  obtain ⟨blobN, key1', _, hk2, hkeyN, hdN, hfaultN⟩ := Initialise_wraps hl hinit
  have hkk : key1' = k := hk2 k rfl
  subst hkk
  rw [appendToNil_of_ne_nil (decrypt_some_ne_nil hd)] at hdN
  exact decryptKey1_eq_ok.mpr ⟨by rw [hfaultN]; exact hf1, by rw [hfaultN]; exact hf2,
    ⟨blobN, hkeyN, hdN⟩, rfl⟩

/-- C5 as amended, at the vault `vault` and passwords `Pass1` and `Pass2`. -/
theorem C5_key1_invariant_witness :
    decryptKey1 miniLib "vault" pwB worldChanged =
      (Res.ok (some ((List.range 32).map fun i => UInt8.ofNat (i + 16))), worldChanged) :=
  C5_key1_invariant miniLib miniLib_lawful "vault" pwA pwB _ worldEnc worldChanged
    (Prod.ext (by decide) rfl) (Prod.ext (by decide) rfl)

/-- C5 as stated fails in a vault that wraps an empty `key1` (as
`Initialise(dir, pw, []byte{})` leaves it): `decryptKey1` unwraps nil before
the change, `ChangePassword` passes that nil on to `Initialise`, which draws a
new random `key1`, and `decryptKey1` unwraps those 32 bytes after it. -/
theorem C5_counterexample :
    (decryptKey1 miniLib "vault" pwA worldEmptyKey).1 = Res.ok none ∧
    (ChangePassword miniLib "vault" pwA pwB worldEmptyKey).1 = Res.ok () ∧
    (decryptKey1 miniLib "vault" pwB worldEmptyKeyChanged).1 =
      Res.ok (some ((List.range 32).map fun i => UInt8.ofNat (i + 44))) ∧
    (decryptKey1 miniLib "vault" pwB worldEmptyKeyChanged).1 ≠
      (decryptKey1 miniLib "vault" pwA worldEmptyKey).1 := by
  decide

/-- C7 (truncated input) fails on the code: on the empty input and a 32-byte key
`decrypt` does not return an error, it panics in its slice expressions. -/
theorem C7_decrypt_empty_input_panics (lib : Lib) :
    decrypt lib (List.replicate 32 0) [] = Res.panic GoPanic.sliceBounds :=
  decrypt_short_input (by decide) (by decide)

/-- C8 (ChangePassword authenticates first). When the `pw` file can be read and
the hash in it does not verify `Wold`, `ChangePassword(dir, Wold, Wnew)`
returns `ErrWrongPassword` for every `Wnew` and leaves the world, and so both
vault files, as it was. -/
theorem C8_change_password_authenticates_first (lib : Lib) (dir : String)
    (Wold Wnew hash : Bytes) (w : World)
    (hf1 : w.fault (Syscall.osOpen (filepathJoin dir "pw")) = false)
    (hf2 : w.fault (Syscall.readAll (filepathJoin dir "pw")) = false)
    (hpw : w.files (filepathJoin dir "pw") = some hash)
    (hv : CompareHashAndPassword lib hash Wold = false) :
    ChangePassword lib dir Wold Wnew w = (Res.err GoError.ErrWrongPassword, w) := by
  have hc : checkPassword lib dir Wold w = (Res.ok false, w) :=
    checkPassword_eq_ok.mpr ⟨hf1, hf2, ⟨hash, hpw, hv.symm⟩, rfl⟩
  simp only [ChangePassword]
  rw [bind_ok hc]
  rfl

/-- C8 at the vault `vault` with the wrong old password `Pass2`. -/
theorem C8_change_password_authenticates_first_witness :
    ChangePassword miniLib "vault" pwB pwLong worldEnc =
      (Res.err GoError.ErrWrongPassword, worldEnc) :=
  C8_change_password_authenticates_first miniLib "vault" pwB pwLong
    ((worldEnc.files "vault/pw").getD []) worldEnc (by decide) (by decide) (by decide) (by decide)

/-- C9 (the vault is read-only outside init and change-password), as amended.
`Encrypt` leaves the `pw` and `key` files unchanged when its destination names
neither of them, and `Decrypt` does when `args[1]` names neither of them,
whether the call succeeds, fails or panics. A path names a vault file when it
resolves to the same file, however it is spelled. -/
theorem C9_vault_files_kept (lib : Lib) (argsE argsD : List String) (dir : String)
    (pw : Bytes) (w : World)
    (henc : ∀ src, argsE.get? 0 = some src →
      w.resolve (encryptDst src argsE) ≠ w.resolve (filepathJoin dir "pw") ∧
        w.resolve (encryptDst src argsE) ≠ w.resolve (filepathJoin dir "key"))
    (hdec : ∀ dst, argsD.get? 1 = some dst →
      w.resolve dst ≠ w.resolve (filepathJoin dir "pw") ∧
        w.resolve dst ≠ w.resolve (filepathJoin dir "key")) :
    ((Encrypt lib argsE dir pw w).2.files (filepathJoin dir "pw") =
        w.files (filepathJoin dir "pw") ∧
      (Encrypt lib argsE dir pw w).2.files (filepathJoin dir "key") =
        w.files (filepathJoin dir "key")) ∧
    ((Decrypt lib argsD dir pw w).2.files (filepathJoin dir "pw") =
        w.files (filepathJoin dir "pw") ∧
      (Decrypt lib argsD dir pw w).2.files (filepathJoin dir "key") =
        w.files (filepathJoin dir "key")) :=
  ⟨⟨Encrypt_files fun src h => (henc src h).1.symm, Encrypt_files fun src h => (henc src h).2.symm⟩,
    ⟨Decrypt_files fun dst h => (hdec dst h).1.symm, Decrypt_files fun dst h => (hdec dst h).2.symm⟩⟩

/-- C9 as amended, for `Encrypt(["doc"])` and `Decrypt(["doc.crypt", "doc.out"])`. -/
theorem C9_vault_files_kept_witness :
    ((Encrypt miniLib ["doc"] "vault" pwA worldEnc).2.files (filepathJoin "vault" "pw") =
        worldEnc.files (filepathJoin "vault" "pw") ∧
      (Encrypt miniLib ["doc"] "vault" pwA worldEnc).2.files (filepathJoin "vault" "key") =
        worldEnc.files (filepathJoin "vault" "key")) ∧
    ((Decrypt miniLib ["doc.crypt", "doc.out"] "vault" pwA worldEnc).2.files
        (filepathJoin "vault" "pw") = worldEnc.files (filepathJoin "vault" "pw") ∧
      (Decrypt miniLib ["doc.crypt", "doc.out"] "vault" pwA worldEnc).2.files
        (filepathJoin "vault" "key") = worldEnc.files (filepathJoin "vault" "key")) :=
  C9_vault_files_kept miniLib ["doc"] ["doc.crypt", "doc.out"] "vault" pwA worldEnc
    (fun src h => by
      simp only [List.get?, Option.some.injEq] at h
      subst h
      decide)
    (fun dst h => by
      simp only [List.get?, Option.some.injEq] at h
      subst h
      decide)

/-- C9 as stated fails: `Encrypt(["doc", "vault/pw"], "vault", Pass1)` succeeds
and replaces the password hash in the vault's `pw` file by the ciphertext, and
so does `Encrypt` to `./vault//pw`, another spelling of that file; `Decrypt` to
`vault/../vault/key` replaces the wrapped key by the plaintext. -/
theorem C9_counterexample :
    filepathJoin "vault" "pw" = "vault/pw" ∧
    (Encrypt miniLib ["doc", "vault/pw"] "vault" pwA worldDoc).1 = Res.ok () ∧
    (Encrypt miniLib ["doc", "vault/pw"] "vault" pwA worldDoc).2.files "vault/pw" ≠
      worldDoc.files "vault/pw" ∧
    (Encrypt miniLib ["doc", "./vault//pw"] "vault" pwA worldDoc).1 = Res.ok () ∧
    (Encrypt miniLib ["doc", "./vault//pw"] "vault" pwA worldDoc).2.files "vault/pw" ≠
      worldDoc.files "vault/pw" ∧
    (Decrypt miniLib ["doc.crypt", "vault/../vault/key"] "vault" pwA worldEnc).1 = Res.ok () ∧
    (Decrypt miniLib ["doc.crypt", "vault/../vault/key"] "vault" pwA worldEnc).2.files
      (filepathJoin "vault" "key") = some docA := by
  decide

/-- C10 (atomic update), as amended. When hashing the password fails or the `pw`
file cannot be created, `Initialise` fails and every file still holds its
prior contents, and so does a `ChangePassword` to that password. -/
theorem C10_failure_before_pw_write (lib : Lib) (dir : String) (pwOld pw : Bytes)
    (k : Option Bytes) (w : World)
    (h : (∀ hash, (GenerateFromPassword lib pw w).1 ≠ Res.ok hash) ∨
      w.fault (Syscall.osCreate (filepathJoin dir "pw")) = true) :
    ((∀ u, (Initialise lib dir pw k w).1 ≠ Res.ok u) ∧
      (Initialise lib dir pw k w).2.files = w.files) ∧
    ((∀ u, (ChangePassword lib dir pwOld pw w).1 ≠ Res.ok u) ∧
      (ChangePassword lib dir pwOld pw w).2.files = w.files) := by
  refine ⟨Initialise_fails_early h, ?_⟩
  simp only [ChangePassword, bind_apply]
  cases hc : checkPassword lib dir pwOld w with
  | mk r w1 =>
    have hw1 : w1 = w := by
      have := checkPassword_world lib dir pwOld w
      rw [hc] at this
      exact this
    subst hw1
    cases r with
    | err e => simp [GoM.bind, hc]
    | panic q => simp [GoM.bind, hc]
    | ok ok =>
      rw [GoM.bind_of_ok hc]
      cases ok with
      | false => simp [GoM.fail]
      | true =>
        simp only [Bool.not_true, Bool.false_eq_true, if_false, bind_apply]
        cases hk : decryptKey1 lib dir pwOld w1 with
        | mk r2 w2 =>
          have hw2 : w2 = w1 := by
            have := decryptKey1_world lib dir pwOld w1
            rw [hk] at this
            exact this
          subst hw2
          cases r2 with
          | err e => simp [GoM.bind, hk]
          | panic q => simp [GoM.bind, hk]
          | ok k1 =>
            rw [GoM.bind_of_ok hk]
            exact Initialise_fails_early h

/-- C10 as amended, in a world whose `pw` file cannot be created. -/
theorem C10_failure_before_pw_write_witness :
    ((∀ u, (Initialise miniLib "vault" pwB none worldPwLocked).1 ≠ Res.ok u) ∧
      (Initialise miniLib "vault" pwB none worldPwLocked).2.files = worldPwLocked.files) ∧
    ((∀ u, (ChangePassword miniLib "vault" pwA pwB worldPwLocked).1 ≠ Res.ok u) ∧
      (ChangePassword miniLib "vault" pwA pwB worldPwLocked).2.files = worldPwLocked.files) :=
  C10_failure_before_pw_write miniLib "vault" pwA pwB none worldPwLocked (Or.inr (by decide))

/-- C10 as stated fails. In a world where the `key` file cannot be created,
`Initialise` and `ChangePassword` return an error after the `pw` file has
been overwritten with the new hash, while the `key` file still holds the old
wrapped key. -/
theorem C10_counterexample :
    (Initialise miniLib "vault" pwB none worldKeyLocked).1 =
      Res.err (GoError.PathError (Syscall.osCreate "vault/key")) ∧
    (Initialise miniLib "vault" pwB none worldKeyLocked).2.files "vault/pw" ≠
      worldKeyLocked.files "vault/pw" ∧
    (Initialise miniLib "vault" pwB none worldKeyLocked).2.files "vault/key" =
      worldKeyLocked.files "vault/key" ∧
    (ChangePassword miniLib "vault" pwA pwB worldKeyLocked).1 =
      Res.err (GoError.PathError (Syscall.osCreate "vault/key")) ∧
    (ChangePassword miniLib "vault" pwA pwB worldKeyLocked).2.files "vault/pw" ≠
      worldKeyLocked.files "vault/pw" ∧
    (ChangePassword miniLib "vault" pwA pwB worldKeyLocked).2.files "vault/key" =
      worldKeyLocked.files "vault/key" := by
  decide

end Crypt
